import Mathlib

/-!
Shallow embedding of `auth_state.mjs` (agent auth state store) and proofs
about its contract.

JavaScript values reachable in this module (JSON data, caller-supplied
options) are modelled by `JSVal`.  JSON numbers are modelled as integers:
no claim depends on fractional values, only on truthiness and equality of
the values that actually occur.  The filesystem is modelled as a total map
from path strings to entries; `Date` timestamps are passed explicitly as
parameters (`now` for `toISOString`, `nowMs` for `Date.now()`).
-/

set_option autoImplicit false

/-- Whitespace trimming as in `String.prototype.trim`, defined over the
character list so that it evaluates by kernel reduction. -/
def strTrim (s : String) : String :=
  ⟨((s.data.dropWhile Char.isWhitespace).reverse.dropWhile
      Char.isWhitespace).reverse⟩

mutual
/-- Model of a JavaScript value as used by this module.  Arrays and
object field lists are mutual inductives rather than nested `List`s so
that every recursive function over values is structurally recursive and
evaluates by kernel reduction. -/
inductive JSVal where
  | undefined
  | null
  | bool (b : Bool)
  | num (n : Int)
  | str (s : String)
  | arr (elems : JSList)
  | obj (fields : JSFields)

/-- A list of array elements. -/
inductive JSList where
  | nil
  | cons (head : JSVal) (tail : JSList)

/-- A list of object fields, in source order. -/
inductive JSFields where
  | nil
  | cons (key : String) (val : JSVal) (tail : JSFields)
end

/-- Builds a `JSList` from a Lean list. -/
def JSList.ofList : List JSVal → JSList
  | [] => .nil
  | v :: rest => .cons v (JSList.ofList rest)

/-- Converts a `JSList` to a Lean list. -/
def JSList.toList : JSList → List JSVal
  | .nil => []
  | .cons v rest => v :: rest.toList

/-- Builds a `JSFields` from a Lean association list. -/
def JSFields.ofList : List (String × JSVal) → JSFields
  | [] => .nil
  | (k, v) :: rest => .cons k v (JSFields.ofList rest)

/-- Array literal notation helper. -/
def jsArr (l : List JSVal) : JSVal := .arr (JSList.ofList l)

/-- Object literal notation helper. -/
def jsObj (l : List (String × JSVal)) : JSVal := .obj (JSFields.ofList l)

/-- JavaScript truthiness. -/
def truthy : JSVal → Bool
  | .undefined => false
  | .null => false
  | .bool b => b
  | .num n => n != 0
  | .str s => s != ""
  | .arr _ => true
  | .obj _ => true

/-- The expression `a || b`. -/
def jsOr (a b : JSVal) : JSVal := if truthy a then a else b

/-- Last value bound to a key in an object literal or JSON text (later
duplicate keys win in JavaScript). -/
def lookupLast : JSFields → String → Option JSVal
  | .nil, _ => none
  | .cons k v rest, key =>
    match lookupLast rest key with
    | some r => some r
    | none => if k = key then some v else none

/-- Property access `v.key`.  On objects it looks the key up; on other
values the properties read by this module are all absent, giving
`undefined`.  (The module never reads a property of `null` or `undefined`:
every access is guarded by a truthiness or typeof check.) -/
def jsGet (v : JSVal) (key : String) : JSVal :=
  match v with
  | .obj fields => (lookupLast fields key).getD .undefined
  | _ => .undefined

/-- The check `typeof v === "object"` (true for objects, arrays and null). -/
def jsTypeofObject : JSVal → Bool
  | .obj _ => true
  | .arr _ => true
  | .null => true
  | _ => false

/-- The check `typeof v === "string"`. -/
def jsTypeofString : JSVal → Bool
  | .str _ => true
  | _ => false

/-- Joins rendered array elements with commas, as `join(",")` does. -/
def jsJoinParts : List String → String
  | [] => ""
  | [s] => s
  | s :: rest => s ++ "," ++ jsJoinParts rest

mutual
/-- The conversion `String(v)`. -/
def jsToString : JSVal → String
  | .undefined => "undefined"
  | .null => "null"
  | .bool b => cond b "true" "false"
  | .num n => toString n
  | .str s => s
  | .obj _ => "[object Object]"
  | .arr xs => jsJoinParts (jsArrParts xs)

/-- Elements of `Array.prototype.toString` (that is, `join(",")`): `null`
and `undefined` render as the empty string, other elements via `String`. -/
def jsArrParts : JSList → List String
  | .nil => []
  | .cons .null rest => "" :: jsArrParts rest
  | .cons .undefined rest => "" :: jsArrParts rest
  | .cons v rest => jsToString v :: jsArrParts rest
end

mutual
/-- The value produced by parsing the output of `JSON.stringify` on a
value: object fields whose value is `undefined` are dropped, `undefined`
array elements become `null`, everything else round-trips unchanged. -/
def jsonRound : JSVal → JSVal
  | .undefined => .undefined
  | .null => .null
  | .bool b => .bool b
  | .num n => .num n
  | .str s => .str s
  | .arr xs => .arr (jsonRoundArr xs)
  | .obj fields => .obj (jsonRoundObj fields)

/-- Round-trip of array elements: `undefined` serializes as `null`. -/
def jsonRoundArr : JSList → JSList
  | .nil => .nil
  | .cons .undefined rest => .cons .null (jsonRoundArr rest)
  | .cons v rest => .cons (jsonRound v) (jsonRoundArr rest)

/-- Round-trip of object fields: `undefined`-valued fields are dropped. -/
def jsonRoundObj : JSFields → JSFields
  | .nil => .nil
  | .cons _ .undefined rest => jsonRoundObj rest
  | .cons k v rest => .cons k (jsonRound v) (jsonRoundObj rest)
end

/-- A normalized auth state record.  `normalizeState` in the source always
produces an object with exactly these ten fields; `handle` is always a
string there (`String(...).trim()`), the other fields keep whatever value
won the `||` coalescing chain. -/
structure AuthState where
  handle : String
  apiKey : JSVal
  publicKeyPem : JSVal
  privateKeyPem : JSVal
  publicKeyJwk : JSVal
  privateKeyJwk : JSVal
  lastProvider : JSVal
  updatedAt : JSVal
  baseUrl : JSVal
  verificationProvider : JSVal

/-- The JSON object written for an `AuthState` (field order as in the
source; the spread in `saveAgentAuthState` keeps this order since the
overridden keys already exist). -/
def authStateToJS (s : AuthState) : JSVal :=
  jsObj [
    ("handle", .str s.handle),
    ("apiKey", s.apiKey),
    ("publicKeyPem", s.publicKeyPem),
    ("privateKeyPem", s.privateKeyPem),
    ("publicKeyJwk", s.publicKeyJwk),
    ("privateKeyJwk", s.privateKeyJwk),
    ("lastProvider", s.lastProvider),
    ("updatedAt", s.updatedAt),
    ("baseUrl", s.baseUrl),
    ("verificationProvider", s.verificationProvider)]

/-- `normalizeState(raw, fallbackHandle)` from the source.  `now` is the
value `nowIso()` would return for the `updatedAt` default. -/
def normalizeState (raw : JSVal) (fallbackHandle : String) (now : String) :
    Option AuthState :=
  if ¬ truthy raw ∨ ¬ jsTypeofObject raw then none
  else
    if strTrim (jsToString (jsOr (jsGet raw "handle")
        (jsOr (.str fallbackHandle) (.str "")))) = "" then none
    else some {
      handle := strTrim (jsToString (jsOr (jsGet raw "handle")
        (jsOr (.str fallbackHandle) (.str "")))),
      apiKey := jsOr (jsGet raw "apiKey") (jsOr (jsGet raw "api_key") (.str "")),
      publicKeyPem := jsOr (jsGet raw "publicKeyPem")
        (jsOr (jsGet raw "public_key_pem") (.str "")),
      privateKeyPem := jsOr (jsGet raw "privateKeyPem")
        (jsOr (jsGet raw "private_key_pem") (.str "")),
      publicKeyJwk := jsOr (jsGet raw "publicKeyJwk")
        (jsOr (jsGet raw "public_jwk") .null),
      privateKeyJwk := jsOr (jsGet raw "privateKeyJwk")
        (jsOr (jsGet raw "private_jwk") .null),
      lastProvider := jsOr (jsGet raw "lastProvider")
        (jsOr (jsGet raw "last_provider")
          (jsOr (jsGet raw "provider") (.str "ed25519"))),
      updatedAt := jsOr (jsGet raw "updatedAt")
        (jsOr (jsGet raw "updated_at") (.str now)),
      baseUrl := jsOr (jsGet raw "baseUrl")
        (jsOr (jsGet raw "base_url") (.str "")),
      verificationProvider := jsOr (jsGet raw "verificationProvider")
        (jsOr (jsGet raw "verification_provider") (.str ""))
    }

/-- Content of an existing file: text on which `JSON.parse` succeeds
(carrying the parsed value) or text on which it throws. -/
inductive FileData where
  | json (v : JSVal)
  | garbage (text : String)

/-- What the filesystem holds at a path: nothing (operations fail with
`ENOENT`), a file, or a path where I/O fails with some other error code. -/
inductive FsEntry where
  | absent
  | file (d : FileData)
  | ioError (code : String)

/-- The filesystem, as a total map from paths to entries. -/
def FS : Type := String → FsEntry

/-- Pointwise update of the filesystem. -/
def FS.set (fs : FS) (p : String) (e : FsEntry) : FS :=
  fun q => if q = p then e else fs q

/-- Result of an operation that may throw: the value or the error code,
together with the filesystem as left behind. -/
inductive OpResult (α : Type) where
  | ok (a : α) (fs : FS)
  | err (code : String) (fs : FS)

/-- The returned value, when the operation did not throw. -/
def OpResult.res {α : Type} : OpResult α → Option α
  | .ok a _ => some a
  | .err _ _ => none

/-- The error code, when the operation threw. -/
def OpResult.errCode {α : Type} : OpResult α → Option String
  | .ok _ _ => none
  | .err c _ => some c

/-- The filesystem after the operation. -/
def OpResult.fsOut {α : Type} : OpResult α → FS
  | .ok _ fs => fs
  | .err _ fs => fs

/-- `path.join` for the joins performed by this module (a directory and a
relative file name). -/
def pathJoin (a b : String) : String := a ++ "/" ++ b

/-- Ambient process configuration: the `CONTEXTOVERFLOW_AUTH_STATE_DIR`
environment variable (absent or its string value) and the home directory
used for the built-in default. -/
structure EnvCfg where
  envAuthStateDir : Option String
  homeDir : String

/-- `DEFAULT_AUTH_STATE_DIR` from the source. -/
def defaultAuthStateDir (cfg : EnvCfg) : String :=
  pathJoin (pathJoin (pathJoin cfg.homeDir ".openclaw") "contextoverflow") "auth"

/-- The options bag accepted by the public operations. -/
structure Options where
  stateDir : JSVal := .undefined
  legacyStateDirs : JSVal := .undefined

/-- `normalizeHandle` from the source. -/
def normalizeHandle (handle : JSVal) : String :=
  match handle with
  | .str s => strTrim s
  | _ => ""

/-- `normalizeStateDir` from the source. -/
def normalizeStateDir (stateDir : JSVal) (cfg : EnvCfg) : String :=
  match stateDir with
  | .str s =>
    if strTrim s ≠ "" then strTrim s
    else
      match cfg.envAuthStateDir with
      | some e => if e ≠ "" then strTrim e else defaultAuthStateDir cfg
      | none => defaultAuthStateDir cfg
  | _ =>
    match cfg.envAuthStateDir with
    | some e => if e ≠ "" then strTrim e else defaultAuthStateDir cfg
    | none => defaultAuthStateDir cfg

/-- `sanitizeHandleForPath` from the source: replace every slash and
backslash by an underscore. -/
def sanitizeHandleForPath (handle : String) : String :=
  ⟨handle.data.map fun c => if c = '/' ∨ c = '\\' then '_' else c⟩

/-- `stateFilePath` from the source. -/
def stateFilePath (stateDir handle : String) : String :=
  pathJoin stateDir (sanitizeHandleForPath handle ++ ".json")

/-- The backup path `filePath + ".corrupt-" + Date.now()`. -/
def corruptPath (filePath : String) (nowMs : Nat) : String :=
  filePath ++ ".corrupt-" ++ Nat.repr nowMs

/-- `backupCorruptState` from the source: best-effort rename; a rename
failure (source absent or erroring) is swallowed, leaving the filesystem
unchanged. -/
def backupCorruptState (fs : FS) (filePath : String) (nowMs : Nat) : FS :=
  match fs filePath with
  | .file d => (fs.set filePath .absent).set (corruptPath filePath nowMs) (.file d)
  | _ => fs

/-- `stateReadCandidates` from the source: the primary path, then one path
per legacy entry that is a non-empty string; a non-array `legacyStateDirs`
contributes nothing. -/
def stateReadCandidates (stateDir handle : String) (legacyStateDirs : JSVal) :
    List String :=
  match legacyStateDirs with
  | .arr ls =>
    stateFilePath stateDir handle ::
      ls.toList.filterMap fun l =>
        match l with
        | .str s => if s = "" then none else some (stateFilePath s handle)
        | _ => none
  | _ => [stateFilePath stateDir handle]

/-- `safeReadState` from the source.  `ENOENT` yields `null`; other read
errors are rethrown; unparseable content is backed up aside and yields
`null`; parsed content is normalized. -/
def safeReadState (fs : FS) (filePath fallbackHandle now : String)
    (nowMs : Nat) : OpResult (Option AuthState) :=
  match fs filePath with
  | .absent => .ok none fs
  | .ioError code => .err code fs
  | .file (.garbage _) => .ok none (backupCorruptState fs filePath nowMs)
  | .file (.json v) => .ok (normalizeState v fallbackHandle now) fs

/-- The candidate loop inside `loadAgentAuthState`: return the first state
that is truthy, threading the filesystem through the reads. -/
def loadLoop (candidates : List String) (fallbackHandle now : String)
    (nowMs : Nat) (fs : FS) : OpResult (Option AuthState) :=
  match candidates with
  | [] => .ok none fs
  | c :: rest =>
    match safeReadState fs c fallbackHandle now nowMs with
    | .err code fs₁ => .err code fs₁
    | .ok (some st) fs₁ => .ok (some st) fs₁
    | .ok none fs₁ => loadLoop rest fallbackHandle now nowMs fs₁

/-- `loadAgentAuthState` from the source. -/
def loadAgentAuthState (handle : JSVal) (opts : Options) (cfg : EnvCfg)
    (now : String) (nowMs : Nat) (fs : FS) : OpResult (Option AuthState) :=
  let normalizedHandle := normalizeHandle handle
  if normalizedHandle = "" then .ok none fs
  else
    let stateDir := normalizeStateDir opts.stateDir cfg
    let candidates := stateReadCandidates stateDir normalizedHandle
      (jsOr opts.legacyStateDirs (.arr .nil))
    loadLoop candidates normalizedHandle now nowMs fs

/-- `getAuthStateFilePath` from the source. -/
def getAuthStateFilePath (handle : JSVal) (opts : Options) (cfg : EnvCfg) :
    Except String String :=
  let normalizedHandle := normalizeHandle handle
  if normalizedHandle = "" then .error "handle is required"
  else .ok (stateFilePath (normalizeStateDir opts.stateDir cfg) normalizedHandle)

/-- The record written by `saveAgentAuthState`: the normalized state (or
the empty object when normalization yields null) with `handle` and
`updatedAt` overridden. -/
def savedRecord (state : JSVal) (normalizedHandle now : String) : JSVal :=
  match normalizeState state normalizedHandle now with
  | some ns => authStateToJS { ns with handle := normalizedHandle, updatedAt := .str now }
  | none => jsObj [("handle", .str normalizedHandle), ("updatedAt", .str now)]

/-- `saveAgentAuthState` from the source.  Directory creation and the
write itself are modelled as always succeeding; the write fully replaces
the entry at the primary path. -/
def saveAgentAuthState (handle state : JSVal) (opts : Options) (cfg : EnvCfg)
    (now : String) (fs : FS) : OpResult Unit :=
  let normalizedHandle := normalizeHandle handle
  if normalizedHandle = "" then .err "handle is required" fs
  else
    let stateDir := normalizeStateDir opts.stateDir cfg
    let filePath := stateFilePath stateDir normalizedHandle
    .ok () (fs.set filePath
      (.file (.json (jsonRound (savedRecord state normalizedHandle now)))))

/-- The candidate loop inside `clearAgentAuthState`: unlink each candidate,
treating `ENOENT` as not-a-failure and rethrowing any other error. -/
def clearLoop (candidates : List String) (deleted : Bool) (fs : FS) :
    OpResult Bool :=
  match candidates with
  | [] => .ok deleted fs
  | c :: rest =>
    match fs c with
    | .absent => clearLoop rest deleted fs
    | .ioError code => .err code fs
    | .file _ => clearLoop rest true (fs.set c .absent)

/-- `clearAgentAuthState` from the source. -/
def clearAgentAuthState (handle : JSVal) (opts : Options) (cfg : EnvCfg)
    (fs : FS) : OpResult Bool :=
  let normalizedHandle := normalizeHandle handle
  if normalizedHandle = "" then .ok false fs
  else
    let stateDir := normalizeStateDir opts.stateDir cfg
    let candidates := stateReadCandidates stateDir normalizedHandle
      (jsOr opts.legacyStateDirs (.arr .nil))
    clearLoop candidates false fs

/-- Arguments handed to the injected `requestJSON` collaborator. -/
structure ReqArgs where
  baseUrl : JSVal
  method : String
  path : JSVal
  apiKey : JSVal
  timeoutMs : JSVal

/-- Behaviour of one collaborator call: it throws or returns a value. -/
inductive ReqResult where
  | throws
  | returns (v : JSVal)

/-- The parameter object of `hasValidApiKey`.  `requestJSON` is `some f`
when the property is a function and `none` otherwise; `path` is `undefined`
when the property is absent, which triggers the `"/me"` default. -/
structure HVKParams where
  apiKey : JSVal := .undefined
  requestJSON : Option (ReqArgs → ReqResult) := none
  baseUrl : JSVal := .undefined
  timeoutMs : JSVal := .undefined
  path : JSVal := .undefined

/-- Observable outcome of `hasValidApiKey`: the boolean result and whether
the collaborator was invoked. -/
structure HVKOut where
  result : Bool
  invoked : Bool
deriving DecidableEq

/-- `hasValidApiKey` from the source.  The function is total: the
`try/catch` converts a collaborator throw into `false`. -/
def hasValidApiKey (p : HVKParams) : HVKOut :=
  if ¬ truthy p.apiKey then ⟨false, false⟩
  else
    match p.requestJSON with
    | none => ⟨false, false⟩
    | some f =>
      match f ⟨p.baseUrl, "GET",
          (match p.path with | .undefined => .str "/me" | v => v),
          p.apiKey, p.timeoutMs⟩ with
      | .throws => ⟨false, true⟩
      | .returns out =>
        if ¬ truthy out then ⟨false, true⟩
        else if ¬ truthy (jsGet out "ok") then ⟨false, true⟩
        else
          let payload := jsGet out "response"
          if ¬ truthy payload then ⟨false, true⟩
          else if ¬ jsTypeofObject payload then ⟨false, true⟩
          else if truthy (jsGet payload "error") then ⟨false, true⟩
          else ⟨truthy (jsGet payload "data"), true⟩

/-- Whether an entry is an I/O-erroring path. -/
def FsEntry.isErr : FsEntry → Bool
  | .ioError _ => true
  | _ => false

/-- Whether an entry is an existing file. -/
def FsEntry.isFile : FsEntry → Bool
  | .file _ => true
  | _ => false

/-- Whether an entry is an existing file with unparseable content. -/
def FsEntry.isGarbage : FsEntry → Bool
  | .file (.garbage _) => true
  | _ => false

/-- Whether an entry is an existing file with parseable content. -/
def FsEntry.isJsonFile : FsEntry → Bool
  | .file (.json _) => true
  | _ => false

/-- The last character of a string, if any. -/
def lastChar (s : String) : Option Char := s.data.getLast?

/-- The state one candidate entry contributes: an existing file whose
content parses and normalizes to a valid record, and nothing otherwise. -/
def readCandidate (e : FsEntry) (fallbackHandle now : String) :
    Option AuthState :=
  match e with
  | .file (.json v) => normalizeState v fallbackHandle now
  | _ => none

/-- Specification-level description of the load loop, following the words
of the specification: the state from the first candidate that exists,
parses and normalizes to a valid record; `none` when no candidate does.
Missing and unparseable candidates are skipped. -/
def firstValidState (fs : FS) (fallbackHandle now : String)
    (l : List String) : Option AuthState :=
  (l.filterMap fun c => readCandidate (fs c) fallbackHandle now).head?

/-- A field value of an already-normalized record: truthy, or equal to
the default its coalescing chain supplies, and stable under the JSON
round-trip. -/
def goodField (v d : JSVal) : Prop :=
  (truthy v = true ∨ v = d) ∧ jsonRound v = v

/-- A record shaped like the output of `normalizeState`: the handle is
trimmed and every persisted field is truthy or holds its default.  Such
records round-trip through save and load. -/
def SaveReady (s : AuthState) : Prop :=
  strTrim s.handle = s.handle ∧
  goodField s.apiKey (.str "") ∧
  goodField s.publicKeyPem (.str "") ∧
  goodField s.privateKeyPem (.str "") ∧
  goodField s.publicKeyJwk .null ∧
  goodField s.privateKeyJwk .null ∧
  goodField s.lastProvider (.str "ed25519") ∧
  goodField s.baseUrl (.str "") ∧
  goodField s.verificationProvider (.str "")

/-- The shape of every record `normalizeState` produces with default
timestamp `now`: a non-empty handle and each of the other nine fields
either truthy or holding the default its coalescing chain supplies; in
particular no field is ever `undefined`. -/
def NormalizedShape (st : AuthState) (now : String) : Prop :=
  st.handle ≠ "" ∧
  (truthy st.apiKey = true ∨ st.apiKey = .str "") ∧
  (truthy st.publicKeyPem = true ∨ st.publicKeyPem = .str "") ∧
  (truthy st.privateKeyPem = true ∨ st.privateKeyPem = .str "") ∧
  (truthy st.publicKeyJwk = true ∨ st.publicKeyJwk = .null) ∧
  (truthy st.privateKeyJwk = true ∨ st.privateKeyJwk = .null) ∧
  (truthy st.lastProvider = true ∨ st.lastProvider = .str "ed25519") ∧
  (truthy st.updatedAt = true ∨ st.updatedAt = .str now) ∧
  (truthy st.baseUrl = true ∨ st.baseUrl = .str "") ∧
  (truthy st.verificationProvider = true ∨
    st.verificationProvider = .str "") ∧
  st.apiKey ≠ .undefined ∧ st.publicKeyPem ≠ .undefined ∧
  st.privateKeyPem ≠ .undefined ∧ st.publicKeyJwk ≠ .undefined ∧
  st.privateKeyJwk ≠ .undefined ∧ st.lastProvider ≠ .undefined ∧
  st.updatedAt ≠ .undefined ∧ st.baseUrl ≠ .undefined ∧
  st.verificationProvider ≠ .undefined

/-! ## String facts -/

theorem dropWhile_prefix_of_fixed {p : Char → Bool} {y z : List Char}
    (hy : y.dropWhile p = y) (hz : z <+: y) : z.dropWhile p = z := by
  cases z with
  | nil => rfl
  | cons a t =>
    obtain ⟨u, hu⟩ := hz
    have hy' : y = a :: (t ++ u) := by rw [← hu]; simp
    have hpa : p a = false := by
      by_contra hpa'
      have hpa2 : p a = true := by simpa using hpa'
      rw [hy'] at hy
      simp only [List.dropWhile, hpa2] at hy
      have hle := (List.dropWhile_suffix (l := t ++ u) p).length_le
      rw [hy] at hle
      simp at hle
    simp [List.dropWhile, hpa]

theorem strTrim_idempotent (s : String) : strTrim (strTrim s) = strTrim s := by
  apply String.ext
  show ((((((s.data.dropWhile Char.isWhitespace).reverse.dropWhile
      Char.isWhitespace).reverse).dropWhile Char.isWhitespace).reverse.dropWhile
      Char.isWhitespace).reverse) =
    ((s.data.dropWhile Char.isWhitespace).reverse.dropWhile Char.isWhitespace).reverse
  have hidem := List.dropWhile_idempotent Char.isWhitespace s.data
  have hpre :
      ((s.data.dropWhile Char.isWhitespace).reverse.dropWhile
        Char.isWhitespace).reverse <+: s.data.dropWhile Char.isWhitespace := by
    have hsuf := List.dropWhile_suffix
      (l := (s.data.dropWhile Char.isWhitespace).reverse) Char.isWhitespace
    have := hsuf.reverse
    simpa using this
  rw [dropWhile_prefix_of_fixed hidem hpre, List.reverse_reverse,
    List.dropWhile_idempotent]

theorem strTrim_empty : strTrim "" = "" := rfl

/-- The last character of an append with a non-empty right part. -/
theorem lastChar_append (s t : String) (h : t.data ≠ []) :
    lastChar (s ++ t) = lastChar t := by
  unfold lastChar
  rw [String.data_append, List.getLast?_append]
  cases hg : t.data.getLast? with
  | none => exact absurd (List.getLast?_eq_none_iff.mp hg) h
  | some c => rfl

/-- `Nat.toDigitsCore` only prepends characters to its accumulator. -/
theorem toDigitsCore_append (b : Nat) :
    ∀ (fuel n : Nat) (ds : List Char),
      ∃ l, Nat.toDigitsCore b fuel n ds = l ++ ds := by
  intro fuel
  induction fuel with
  | zero => intro n ds; exact ⟨[], rfl⟩
  | succ fuel ih =>
    intro n ds
    rw [Nat.toDigitsCore]
    by_cases h : n / b = 0
    · simp only [h, if_true]
      exact ⟨[Nat.digitChar (n % b)], rfl⟩
    · simp only [h, if_false]
      obtain ⟨l, hl⟩ := ih (n / b) (Nat.digitChar (n % b) :: ds)
      exact ⟨l ++ [Nat.digitChar (n % b)], by rw [hl]; simp⟩

/-- The decimal rendering of a natural number ends with the character of
its last digit. -/
theorem repr_lastChar (n : Nat) :
    lastChar (Nat.repr n) = some (Nat.digitChar (n % 10)) := by
  unfold lastChar Nat.repr Nat.toDigits
  rw [Nat.toDigitsCore]
  by_cases h : n / 10 = 0
  · simp only [h, if_true]
    rfl
  · simp only [h, if_false]
    obtain ⟨l, hl⟩ := toDigitsCore_append 10 n (n / 10) [Nat.digitChar (n % 10)]
    rw [hl]
    show (l ++ [Nat.digitChar (n % 10)]).getLast? = _
    rw [List.getLast?_concat]

/-- Decimal digit characters are never the letter at the end of the
`.json` suffix. -/
theorem digitChar_ne_n (m : Nat) (h : m < 10) : Nat.digitChar m ≠ 'n' := by
  interval_cases m <;> decide

theorem corruptPath_lastChar (p : String) (nowMs : Nat) :
    lastChar (corruptPath p nowMs) = some (Nat.digitChar (nowMs % 10)) := by
  unfold corruptPath
  have hne : (Nat.repr nowMs).data ≠ [] := by
    have := repr_lastChar nowMs
    unfold lastChar at this
    intro hnil
    rw [hnil] at this
    simp at this
  rw [lastChar_append _ _ hne, repr_lastChar]

/-- A corrupt-backup path never collides with a path that ends in the
`.json` suffix. -/
theorem corruptPath_ne_json (p q : String) (nowMs : Nat)
    (hq : lastChar q = some 'n') : corruptPath p nowMs ≠ q := by
  intro he
  rw [← he, corruptPath_lastChar] at hq
  have := digitChar_ne_n (nowMs % 10) (Nat.mod_lt _ (by norm_num))
  simp at hq
  exact this hq

theorem corruptPath_right_injective {p q : String} {nowMs : Nat}
    (h : corruptPath p nowMs = corruptPath q nowMs) : p = q := by
  unfold corruptPath at h
  have hd := congrArg String.data h
  simp only [String.data_append] at hd
  exact String.ext (List.append_cancel_right (List.append_cancel_right hd))

theorem stateFilePath_lastChar (d h : String) :
    lastChar (stateFilePath d h) = some 'n' := by
  unfold stateFilePath pathJoin
  rw [lastChar_append]
  · show lastChar (sanitizeHandleForPath h ++ ".json") = some 'n'
    rw [lastChar_append]
    · rfl
    · decide
  · intro hnil
    rw [String.data_append] at hnil
    simp at hnil

theorem mem_stateReadCandidates_lastChar (d h : String) (leg : JSVal) :
    ∀ p ∈ stateReadCandidates d h leg, lastChar p = some 'n' := by
  intro p hp
  unfold stateReadCandidates at hp
  match leg with
  | .arr ls =>
    simp only at hp
    rcases List.mem_cons.mp hp with h1 | h2
    · rw [h1]; exact stateFilePath_lastChar d h
    · obtain ⟨l, _, hl⟩ := List.mem_filterMap.mp h2
      match l with
      | .str s =>
        simp only at hl
        split at hl
        · exact absurd hl (by simp)
        · cases hl with
          | refl => exact stateFilePath_lastChar s h
      | .undefined | .null | .bool _ | .num _ | .arr _ | .obj _ => simp at hl
  | .undefined | .null | .bool _ | .num _ | .str _ | .obj _ =>
    simp only [List.mem_singleton] at hp
    rw [hp]; exact stateFilePath_lastChar d h

/-! ## Load loop facts -/

/-- `firstValidState` only depends on what each candidate contributes. -/
theorem firstValidState_congr (fb now : String) :
    ∀ (l : List String) (fs fs2 : FS),
      (∀ p ∈ l, readCandidate (fs2 p) fb now = readCandidate (fs p) fb now) →
      firstValidState fs2 fb now l = firstValidState fs fb now l := by
  intro l
  induction l with
  | nil => intro fs fs2 _; rfl
  | cons c rest ih =>
    intro fs fs2 h
    have hrest : ∀ p ∈ rest,
        readCandidate (fs2 p) fb now = readCandidate (fs p) fb now :=
      fun p hp => h p (List.mem_cons_of_mem c hp)
    have hc := h c (List.mem_cons_self c rest)
    unfold firstValidState at ih ⊢
    rw [List.filterMap_cons, List.filterMap_cons, hc]
    cases readCandidate (fs c) fb now with
    | some st => rfl
    | none => exact ih fs fs2 hrest

/-- When no candidate read errors, the load loop returns exactly the
first valid state in candidate order, and never throws. -/
theorem loadLoop_ok (fb now : String) (ms : Nat) :
    ∀ (l : List String) (fs : FS),
      (∀ p ∈ l, lastChar p = some 'n') →
      (∀ p ∈ l, (fs p).isErr = false) →
      ∃ fs2, loadLoop l fb now ms fs = .ok (firstValidState fs fb now l) fs2 := by
  intro l
  induction l with
  | nil => intro fs _ _; exact ⟨fs, rfl⟩
  | cons c rest ih =>
    intro fs hjson herr
    have hjr : ∀ p ∈ rest, lastChar p = some 'n' :=
      fun p hp => hjson p (List.mem_cons_of_mem c hp)
    have her : ∀ p ∈ rest, (fs p).isErr = false :=
      fun p hp => herr p (List.mem_cons_of_mem c hp)
    have hfvs : firstValidState fs fb now (c :: rest) =
        match readCandidate (fs c) fb now with
        | some st => some st
        | none => firstValidState fs fb now rest := by
      unfold firstValidState
      rw [List.filterMap_cons]
      cases readCandidate (fs c) fb now with
      | some st => rfl
      | none => rfl
    cases hfc : fs c with
    | ioError code =>
      have := herr c (List.mem_cons_self c rest)
      rw [hfc] at this
      simp [FsEntry.isErr] at this
    | absent =>
      rw [loadLoop, hfvs]
      simp only [safeReadState]
      rw [hfc]
      simp only [readCandidate]
      exact ih fs hjr her
    | file d =>
      cases d with
      | json v =>
        rw [loadLoop, hfvs]
        simp only [safeReadState]
        rw [hfc]
        simp only [readCandidate]
        cases hnv : normalizeState v fb now with
        | some st => exact ⟨fs, rfl⟩
        | none => exact ih fs hjr her
      | garbage g =>
        rw [loadLoop, hfvs]
        simp only [safeReadState, backupCorruptState]
        rw [hfc]
        simp only [readCandidate]
        set fs2 : FS :=
          (fs.set c .absent).set (corruptPath c ms) (.file (.garbage g)) with hfs2
        have hfs2at : ∀ p, lastChar p = some 'n' →
            fs2 p = if p = c then .absent else fs p := by
          intro p hp
          rw [hfs2]
          unfold FS.set
          have hpc : p ≠ corruptPath c ms :=
            fun he => corruptPath_ne_json c p ms hp he.symm
          simp [hpc]
        have her2 : ∀ p ∈ rest, (fs2 p).isErr = false := by
          intro p hp
          rw [hfs2at p (hjr p hp)]
          by_cases hpc : p = c
          · simp [hpc, FsEntry.isErr]
          · simp only [hpc, if_false]
            exact her p hp
        obtain ⟨fs3, hfs3⟩ := ih fs2 hjr her2
        refine ⟨fs3, ?_⟩
        rw [hfs3]
        have hcong : firstValidState fs2 fb now rest =
            firstValidState fs fb now rest := by
          apply firstValidState_congr
          intro p hp
          rw [hfs2at p (hjr p hp)]
          by_cases hpc : p = c
          · rw [hpc, hfc]
            simp [readCandidate]
          · simp [hpc]
        rw [hcong]

theorem isGarbage_iff (e : FsEntry) :
    e.isGarbage = true ↔ ∃ g, e = .file (.garbage g) := by
  cases e with
  | file d => cases d <;> simp [FsEntry.isGarbage]
  | absent => simp [FsEntry.isGarbage]
  | ioError code => simp [FsEntry.isGarbage]

/-- When every candidate is missing or unparseable, the load loop returns
`null` without throwing; each unparseable candidate is renamed to its
corrupt-backup path, and nothing else changes. -/
theorem loadLoop_allMissing (fb now : String) (ms : Nat) :
    ∀ (l : List String) (fs : FS),
      (∀ p ∈ l, lastChar p = some 'n') →
      (∀ p ∈ l, fs p = .absent ∨ (fs p).isGarbage = true) →
      ∃ fs2, loadLoop l fb now ms fs = .ok none fs2 ∧
        (∀ p ∈ l, fs2 p = .absent) ∧
        (∀ p ∈ l, ∀ g, fs p = .file (.garbage g) →
          fs2 (corruptPath p ms) = .file (.garbage g)) ∧
        (∀ q, (∀ p ∈ l, (fs p).isGarbage = true →
          q ≠ p ∧ q ≠ corruptPath p ms) → fs2 q = fs q) := by
  intro l
  induction l with
  | nil =>
    intro fs _ _
    exact ⟨fs, rfl, by simp, by simp, fun q _ => rfl⟩
  | cons c rest ih =>
    intro fs hjson hmiss
    have hjc := hjson c (List.mem_cons_self c rest)
    have hjr : ∀ p ∈ rest, lastChar p = some 'n' :=
      fun p hp => hjson p (List.mem_cons_of_mem c hp)
    rcases hmiss c (List.mem_cons_self c rest) with hfc | hgc
    · -- the head candidate is missing: nothing changes at this step
      have hmr : ∀ p ∈ rest, fs p = .absent ∨ (fs p).isGarbage = true :=
        fun p hp => hmiss p (List.mem_cons_of_mem c hp)
      obtain ⟨fs2, hres, hb, hc2, hd⟩ := ih fs hjr hmr
      refine ⟨fs2, ?_, ?_, ?_, ?_⟩
      · rw [loadLoop]
        simp only [safeReadState]
        rw [hfc]
        exact hres
      · intro p hp
        rcases List.mem_cons.mp hp with rfl | hp2
        · by_cases hcr : p ∈ rest
          · exact hb p hcr
          · have := hd p (by
              intro p2 hp2 hg2
              refine ⟨fun he => hcr (he ▸ hp2), ?_⟩
              exact fun he => corruptPath_ne_json p2 p ms hjc he.symm)
            rw [this, hfc]
        · exact hb p hp2
      · intro p hp g hg
        rcases List.mem_cons.mp hp with rfl | hp2
        · rw [hfc] at hg; exact absurd hg (by simp)
        · exact hc2 p hp2 g hg
      · intro q hq
        exact hd q fun p hp hg => hq p (List.mem_cons_of_mem c hp) hg
    · -- the head candidate is unparseable: it is renamed aside
      obtain ⟨g, hfc⟩ := (isGarbage_iff (fs c)).mp hgc
      set fs1 : FS :=
        (fs.set c .absent).set (corruptPath c ms) (.file (.garbage g)) with hfs1
      have hat : ∀ q, fs1 q =
          if q = corruptPath c ms then .file (.garbage g)
          else if q = c then .absent else fs q := by
        intro q
        rw [hfs1]
        simp [FS.set]
      have hatJson : ∀ q, lastChar q = some 'n' →
          fs1 q = if q = c then .absent else fs q := by
        intro q hqn
        rw [hat q]
        have : q ≠ corruptPath c ms :=
          fun he => corruptPath_ne_json c q ms hqn he.symm
        simp [this]
      have hmr : ∀ p ∈ rest, fs1 p = .absent ∨ (fs1 p).isGarbage = true := by
        intro p hp
        rw [hatJson p (hjr p hp)]
        by_cases hpc : p = c
        · simp [hpc]
        · simp only [hpc, if_false]
          exact hmiss p (List.mem_cons_of_mem c hp)
      obtain ⟨fs2, hres, hb, hc2, hd⟩ := ih fs1 hjr hmr
      have hgarb1 : ∀ p ∈ rest, (fs1 p).isGarbage = true →
          p ≠ c ∧ fs1 p = fs p := by
        intro p hp hg
        have hpn := hjr p hp
        by_cases hpc : p = c
        · rw [hatJson p hpn, if_pos hpc] at hg
          simp [FsEntry.isGarbage] at hg
        · rw [hatJson p hpn, if_neg hpc] at hg ⊢
          exact ⟨hpc, rfl⟩
      refine ⟨fs2, ?_, ?_, ?_, ?_⟩
      · rw [loadLoop]
        simp only [safeReadState, backupCorruptState]
        rw [hfc]
        exact hres
      · intro p hp
        rcases List.mem_cons.mp hp with rfl | hp2
        · by_cases hcr : p ∈ rest
          · exact hb p hcr
          · have := hd p (by
              intro p2 hp2 hg2
              refine ⟨fun he => hcr (he ▸ hp2), ?_⟩
              exact fun he => corruptPath_ne_json p2 p ms hjc he.symm)
            rw [this, hatJson p hjc, if_pos rfl]
        · exact hb p hp2
      · intro p hp g2 hg2
        by_cases hpc : p = c
        · subst hpc
          rw [hfc] at hg2
          cases hg2
          have := hd (corruptPath p ms) (by
            intro p2 hp2 hgp2
            obtain ⟨hne, heq⟩ := hgarb1 p2 hp2 hgp2
            constructor
            · exact corruptPath_ne_json p p2 ms (hjr p2 hp2)
            · intro he
              exact hne (corruptPath_right_injective he).symm)
          rw [this, hat (corruptPath p ms), if_pos rfl]
        · rcases List.mem_cons.mp hp with rfl | hp2
          · exact absurd rfl hpc
          · have hfs1p : fs1 p = fs p := by
              rw [hatJson p (hjr p hp2), if_neg hpc]
            exact hc2 p hp2 g2 (by rw [hfs1p]; exact hg2)
      · intro q hq
        have h1 : fs2 q = fs1 q := by
          apply hd q
          intro p2 hp2 hg2
          obtain ⟨hne, heq⟩ := hgarb1 p2 hp2 hg2
          exact hq p2 (List.mem_cons_of_mem c hp2) (by rw [← heq]; exact hg2)
        obtain ⟨hqc, hqcor⟩ := hq c (List.mem_cons_self c rest) hgc
        rw [h1, hat q, if_neg hqcor, if_neg hqc]

/-! ## Clear loop facts -/

/-- When no candidate errors, the clear loop deletes every candidate,
reports whether any of them was an existing file, and touches nothing
else. -/
theorem clearLoop_ok :
    ∀ (l : List String) (d : Bool) (fs : FS),
      (∀ p ∈ l, (fs p).isErr = false) →
      ∃ fs2, clearLoop l d fs =
        .ok (d || l.any fun p => (fs p).isFile) fs2 ∧
        ∀ q, fs2 q = if q ∈ l then .absent else fs q := by
  intro l
  induction l with
  | nil =>
    intro d fs _
    refine ⟨fs, by simp [clearLoop], fun q => by simp⟩
  | cons c rest ih =>
    intro d fs herr
    have her : ∀ p ∈ rest, (fs p).isErr = false :=
      fun p hp => herr p (List.mem_cons_of_mem c hp)
    cases hfc : fs c with
    | ioError code =>
      have := herr c (List.mem_cons_self c rest)
      rw [hfc] at this
      simp [FsEntry.isErr] at this
    | absent =>
      obtain ⟨fs2, hres, hpt⟩ := ih d fs her
      refine ⟨fs2, ?_, ?_⟩
      · rw [clearLoop, hfc, hres]
        simp [hfc, FsEntry.isFile]
      · intro q
        rw [hpt q]
        by_cases hq : q ∈ rest
        · simp [hq, List.mem_cons_of_mem c hq]
        · by_cases hqc : q = c
          · simp [hq, hqc, hfc]
          · simp [hq, hqc]
    | file dt =>
      have her1 : ∀ p ∈ rest, ((fs.set c .absent) p).isErr = false := by
        intro p hp
        unfold FS.set
        by_cases hpc : p = c
        · simp [hpc, FsEntry.isErr]
        · simp only [hpc, if_false]
          exact her p hp
      obtain ⟨fs2, hres, hpt⟩ := ih true (fs.set c .absent) her1
      refine ⟨fs2, ?_, ?_⟩
      · rw [clearLoop, hfc, hres]
        simp [hfc, FsEntry.isFile]
      · intro q
        rw [hpt q]
        unfold FS.set
        by_cases hq : q ∈ rest
        · simp [hq, List.mem_cons_of_mem c hq]
        · by_cases hqc : q = c
          · simp [hq, hqc]
          · simp [hq, hqc]

/-- The clear loop stops at the first erroring candidate and rethrows its
code; candidates before it are already deleted, later ones untouched. -/
theorem clearLoop_err :
    ∀ (l1 : List String) (c : String) (l2 : List String) (d : Bool)
      (fs : FS) (code : String),
      (∀ p ∈ l1, (fs p).isErr = false) →
      fs c = .ioError code →
      ∃ fs2, clearLoop (l1 ++ c :: l2) d fs = .err code fs2 ∧
        ∀ q, fs2 q = if q ∈ l1 then .absent else fs q := by
  intro l1
  induction l1 with
  | nil =>
    intro c l2 d fs code _ hc
    refine ⟨fs, ?_, fun q => by simp⟩
    rw [List.nil_append, clearLoop, hc]
  | cons a l1 ih =>
    intro c l2 d fs code herr hc
    have her : ∀ p ∈ l1, (fs p).isErr = false :=
      fun p hp => herr p (List.mem_cons_of_mem a hp)
    cases hfa : fs a with
    | ioError code2 =>
      have := herr a (List.mem_cons_self a l1)
      rw [hfa] at this
      simp [FsEntry.isErr] at this
    | absent =>
      obtain ⟨fs2, hres, hpt⟩ := ih c l2 d fs code her hc
      refine ⟨fs2, ?_, ?_⟩
      · rw [List.cons_append, clearLoop, hfa, hres]
      · intro q
        rw [hpt q]
        by_cases hq : q ∈ l1
        · simp [hq, List.mem_cons_of_mem a hq]
        · by_cases hqa : q = a
          · simp [hq, hqa, hfa]
          · simp [hq, hqa]
    | file dt =>
      have hca : c ≠ a := by
        intro he
        rw [he, hfa] at hc
        cases hc
      have her1 : ∀ p ∈ l1, ((fs.set a .absent) p).isErr = false := by
        intro p hp
        unfold FS.set
        by_cases hpa : p = a
        · simp [hpa, FsEntry.isErr]
        · simp only [hpa, if_false]
          exact her p hp
      have hc1 : (fs.set a .absent) c = .ioError code := by
        unfold FS.set
        simp [hca]
        exact hc
      obtain ⟨fs2, hres, hpt⟩ := ih c l2 true (fs.set a .absent) code her1 hc1
      refine ⟨fs2, ?_, ?_⟩
      · rw [List.cons_append, clearLoop, hfa, hres]
      · intro q
        rw [hpt q]
        unfold FS.set
        by_cases hq : q ∈ l1
        · simp [hq, List.mem_cons_of_mem a hq]
        · by_cases hqa : q = a
          · simp [hq, hqa]
          · simp [hq, hqa]

/-! ## Normalization facts -/

theorem jsOr_of_truthy {a : JSVal} (b : JSVal) (h : truthy a = true) :
    jsOr a b = a := by
  simp [jsOr, h]

theorem jsOr_of_falsy {a : JSVal} (b : JSVal) (h : truthy a = false) :
    jsOr a b = b := by
  simp [jsOr, h]

/-- A value that is truthy, or already equal to the default, is a fixed
point of the `||`-with-default coalescing. -/
theorem jsOr_fixed {v d : JSVal} (h : truthy v = true ∨ v = d) :
    jsOr v d = v := by
  rcases h with h | rfl
  · exact jsOr_of_truthy _ h
  · simp [jsOr]

/-- `normalizeState` applied to the serialized form of a record whose
fields are truthy or defaulted: the handle falls back when empty, the
`updatedAt` falls back to the current timestamp when falsy, and every
other field is preserved. -/
theorem normalizeState_authStateToJS (s : AuthState) (fb now : String)
    (htrim : strTrim s.handle = s.handle)
    (hfb : s.handle = "" → strTrim fb ≠ "")
    (hapi : truthy s.apiKey = true ∨ s.apiKey = .str "")
    (hpub : truthy s.publicKeyPem = true ∨ s.publicKeyPem = .str "")
    (hpriv : truthy s.privateKeyPem = true ∨ s.privateKeyPem = .str "")
    (hpubj : truthy s.publicKeyJwk = true ∨ s.publicKeyJwk = .null)
    (hprivj : truthy s.privateKeyJwk = true ∨ s.privateKeyJwk = .null)
    (hlast : truthy s.lastProvider = true ∨ s.lastProvider = .str "ed25519")
    (hbase : truthy s.baseUrl = true ∨ s.baseUrl = .str "")
    (hver : truthy s.verificationProvider = true ∨
      s.verificationProvider = .str "") :
    normalizeState (authStateToJS s) fb now =
      some { s with
        handle := if s.handle = "" then strTrim fb else s.handle,
        updatedAt := if truthy s.updatedAt then s.updatedAt else .str now } := by
  have hred : normalizeState (authStateToJS s) fb now =
      (if strTrim (jsToString
          (jsOr (.str s.handle) (jsOr (.str fb) (.str "")))) = ""
        then none
        else some {
          handle := strTrim (jsToString
            (jsOr (.str s.handle) (jsOr (.str fb) (.str "")))),
          apiKey := jsOr s.apiKey (.str ""),
          publicKeyPem := jsOr s.publicKeyPem (.str ""),
          privateKeyPem := jsOr s.privateKeyPem (.str ""),
          publicKeyJwk := jsOr s.publicKeyJwk .null,
          privateKeyJwk := jsOr s.privateKeyJwk .null,
          lastProvider := jsOr s.lastProvider (.str "ed25519"),
          updatedAt := jsOr s.updatedAt (.str now),
          baseUrl := jsOr s.baseUrl (.str ""),
          verificationProvider := jsOr s.verificationProvider (.str "") }) :=
    rfl
  rw [hred, jsOr_fixed hapi, jsOr_fixed hpub, jsOr_fixed hpriv,
    jsOr_fixed hpubj, jsOr_fixed hprivj, jsOr_fixed hlast, jsOr_fixed hbase,
    jsOr_fixed hver]
  by_cases hh : s.handle = ""
  · have ht1 : truthy (JSVal.str s.handle) = false := by simp [truthy, hh]
    rw [jsOr_of_falsy _ ht1]
    have hfb2 := hfb hh
    have hfbne : fb ≠ "" := by
      intro he
      exact hfb2 (by rw [he]; rfl)
    have ht2 : truthy (JSVal.str fb) = true := by simp [truthy, hfbne]
    rw [jsOr_of_truthy _ ht2]
    have hjs : jsToString (JSVal.str fb) = fb := rfl
    rw [hjs, if_neg hfb2, if_pos hh]
    simp [jsOr]
  · have ht1 : truthy (JSVal.str s.handle) = true := by simp [truthy, hh]
    rw [jsOr_of_truthy _ ht1]
    have hjs : jsToString (JSVal.str s.handle) = s.handle := rfl
    rw [hjs, htrim, if_neg hh, if_neg hh]
    simp [jsOr]

/-- Object-field round-trip steps over a field whose value is present. -/
theorem jsonRoundObj_cons (k : String) (v : JSVal) (rest : JSFields)
    (hv : v ≠ .undefined) :
    jsonRoundObj (.cons k v rest) = .cons k (jsonRound v) (jsonRoundObj rest) := by
  cases v with
  | undefined => exact absurd rfl hv
  | null => rfl
  | bool b => rfl
  | num n => rfl
  | str s => rfl
  | arr xs => rfl
  | obj fields => rfl

/-- Serialization keeps a record unchanged when all its field values are
fixed points of the JSON round-trip and none is `undefined`. -/
theorem jsonRound_authStateToJS (s : AuthState)
    (hapi : jsonRound s.apiKey = s.apiKey ∧ s.apiKey ≠ .undefined)
    (hpub : jsonRound s.publicKeyPem = s.publicKeyPem ∧
      s.publicKeyPem ≠ .undefined)
    (hpriv : jsonRound s.privateKeyPem = s.privateKeyPem ∧
      s.privateKeyPem ≠ .undefined)
    (hpubj : jsonRound s.publicKeyJwk = s.publicKeyJwk ∧
      s.publicKeyJwk ≠ .undefined)
    (hprivj : jsonRound s.privateKeyJwk = s.privateKeyJwk ∧
      s.privateKeyJwk ≠ .undefined)
    (hlast : jsonRound s.lastProvider = s.lastProvider ∧
      s.lastProvider ≠ .undefined)
    (hupd : jsonRound s.updatedAt = s.updatedAt ∧ s.updatedAt ≠ .undefined)
    (hbase : jsonRound s.baseUrl = s.baseUrl ∧ s.baseUrl ≠ .undefined)
    (hver : jsonRound s.verificationProvider = s.verificationProvider ∧
      s.verificationProvider ≠ .undefined) :
    jsonRound (authStateToJS s) = authStateToJS s := by
  have hobj : ∀ f : JSFields, jsonRound (.obj f) = .obj (jsonRoundObj f) :=
    fun f => rfl
  unfold authStateToJS jsObj
  simp only [JSFields.ofList]
  rw [hobj]
  rw [jsonRoundObj_cons _ _ _ (by intro h; cases h),
    jsonRoundObj_cons _ _ _ hapi.2, jsonRoundObj_cons _ _ _ hpub.2,
    jsonRoundObj_cons _ _ _ hpriv.2, jsonRoundObj_cons _ _ _ hpubj.2,
    jsonRoundObj_cons _ _ _ hprivj.2, jsonRoundObj_cons _ _ _ hlast.2,
    jsonRoundObj_cons _ _ _ hupd.2, jsonRoundObj_cons _ _ _ hbase.2,
    jsonRoundObj_cons _ _ _ hver.2, hapi.1, hpub.1, hpriv.1, hpubj.1,
    hprivj.1, hlast.1, hupd.1, hbase.1, hver.1]
  rfl

example : normalizeState (jsObj [("handle", .str "  a ")]) "" "t" =
    some { handle := "a", apiKey := .str "", publicKeyPem := .str "",
           privateKeyPem := .str "", publicKeyJwk := .null,
           privateKeyJwk := .null, lastProvider := .str "ed25519",
           updatedAt := .str "t", baseUrl := .str "",
           verificationProvider := .str "" } := rfl

example : normalizeState (jsObj [("handle", .str " ")]) "fb" "t" = none := rfl

example : normalizeState .null "fb" "t" = none := rfl

/-! ## Helpers for the operation-level theorems -/

theorem goodField_ne_undef {v d : JSVal} (h : goodField v d)
    (hd : d ≠ .undefined) : v ≠ .undefined := by
  rcases h.1 with ht | rfl
  · intro he
    rw [he] at ht
    exact absurd ht (by simp [truthy])
  · exact hd

theorem normalizeHandle_trim (h : JSVal) :
    strTrim (normalizeHandle h) = normalizeHandle h := by
  cases h with
  | str s => exact strTrim_idempotent s
  | undefined => rfl
  | null => rfl
  | bool b => rfl
  | num n => rfl
  | arr xs => rfl
  | obj fields => rfl

/-- A record with a non-empty trimmed handle, a truthy timestamp and
truthy-or-defaulted fields normalizes to itself. -/
theorem normalizeState_authStateToJS_of_ready (s : AuthState)
    (fb now : String)
    (htrim : strTrim s.handle = s.handle) (hne : s.handle ≠ "")
    (hupd : truthy s.updatedAt = true)
    (hapi : truthy s.apiKey = true ∨ s.apiKey = .str "")
    (hpub : truthy s.publicKeyPem = true ∨ s.publicKeyPem = .str "")
    (hpriv : truthy s.privateKeyPem = true ∨ s.privateKeyPem = .str "")
    (hpubj : truthy s.publicKeyJwk = true ∨ s.publicKeyJwk = .null)
    (hprivj : truthy s.privateKeyJwk = true ∨ s.privateKeyJwk = .null)
    (hlast : truthy s.lastProvider = true ∨ s.lastProvider = .str "ed25519")
    (hbase : truthy s.baseUrl = true ∨ s.baseUrl = .str "")
    (hver : truthy s.verificationProvider = true ∨
      s.verificationProvider = .str "") :
    normalizeState (authStateToJS s) fb now = some s := by
  rw [normalizeState_authStateToJS s fb now htrim (fun hc => absurd hc hne)
    hapi hpub hpriv hpubj hprivj hlast hbase hver]
  rw [if_neg hne, if_pos hupd]

/-- When the first candidate holds a file that parses and normalizes, the
load loop returns that state at once and changes nothing. -/
theorem loadLoop_head_hit (c : String) (rest : List String) (fb now : String)
    (ms : Nat) (fs : FS) (v : JSVal) (st : AuthState)
    (hfc : fs c = .file (.json v)) (hnv : normalizeState v fb now = some st) :
    loadLoop (c :: rest) fb now ms fs = .ok (some st) fs := by
  rw [loadLoop]
  simp only [safeReadState, hfc, hnv]

/-- Every candidate list starts with the primary path. -/
theorem stateReadCandidates_head (d h : String) (leg : JSVal) :
    ∃ rest, stateReadCandidates d h leg = stateFilePath d h :: rest := by
  cases leg with
  | arr ls => exact ⟨_, rfl⟩
  | undefined => exact ⟨[], rfl⟩
  | null => exact ⟨[], rfl⟩
  | bool b => exact ⟨[], rfl⟩
  | num n => exact ⟨[], rfl⟩
  | str s => exact ⟨[], rfl⟩
  | obj fields => exact ⟨[], rfl⟩

/-! ## Claim theorems -/

/-- Claim C1: for every non-empty handle `h` and every valid (already
normalized, save-ready) state `s`, loading `h` right after saving `s`
under `h` — same options and environment, no intervening writes — returns
the record `s` with `handle` forced to the trimmed `h` and `updatedAt`
refreshed to the save-time timestamp, and leaves the filesystem as the
save left it. -/
theorem load_after_save_roundtrip
    (h : JSVal) (s : AuthState) (opts : Options) (cfg : EnvCfg)
    (now loadNow : String) (nowMs : Nat) (fs : FS)
    (hh : normalizeHandle h ≠ "") (hready : SaveReady s) (hnow : now ≠ "") :
    loadAgentAuthState h opts cfg loadNow nowMs
        (saveAgentAuthState h (authStateToJS s) opts cfg now fs).fsOut =
      .ok (some { s with handle := normalizeHandle h, updatedAt := .str now })
        (saveAgentAuthState h (authStateToJS s) opts cfg now fs).fsOut := by
  obtain ⟨htrim, hapi, hpub, hpriv, hpubj, hprivj, hlast, hbase, hver⟩ := hready
  set th := normalizeHandle h with hth
  have hthtrim : strTrim th = th := normalizeHandle_trim h
  set dir := normalizeStateDir opts.stateDir cfg with hdir
  set P := stateFilePath dir th with hP
  set s1 : AuthState :=
    { s with handle := th, updatedAt := .str now } with hs1
  -- the record the save writes
  have hns : normalizeState (authStateToJS s) th now =
      some { s with
        handle := if s.handle = "" then strTrim th else s.handle,
        updatedAt := if truthy s.updatedAt then s.updatedAt else .str now } :=
    normalizeState_authStateToJS s th now htrim
      (fun _ => by rw [hthtrim]; exact hh)
      hapi.1 hpub.1 hpriv.1 hpubj.1 hprivj.1 hlast.1 hbase.1 hver.1
  have hsaved : savedRecord (authStateToJS s) th now = authStateToJS s1 := by
    unfold savedRecord
    rw [hns]
  have hround : jsonRound (authStateToJS s1) = authStateToJS s1 := by
    apply jsonRound_authStateToJS
    · exact ⟨hapi.2, goodField_ne_undef hapi (by intro he; cases he)⟩
    · exact ⟨hpub.2, goodField_ne_undef hpub (by intro he; cases he)⟩
    · exact ⟨hpriv.2, goodField_ne_undef hpriv (by intro he; cases he)⟩
    · exact ⟨hpubj.2, goodField_ne_undef hpubj (by intro he; cases he)⟩
    · exact ⟨hprivj.2, goodField_ne_undef hprivj (by intro he; cases he)⟩
    · exact ⟨hlast.2, goodField_ne_undef hlast (by intro he; cases he)⟩
    · exact ⟨rfl, by intro he; cases he⟩
    · exact ⟨hbase.2, goodField_ne_undef hbase (by intro he; cases he)⟩
    · exact ⟨hver.2, goodField_ne_undef hver (by intro he; cases he)⟩
  have hsave : saveAgentAuthState h (authStateToJS s) opts cfg now fs =
      .ok () (fs.set P (.file (.json (authStateToJS s1)))) := by
    unfold saveAgentAuthState
    rw [if_neg hh, hsaved, hround]
  rw [hsave]
  set FSX : FS := fs.set P (.file (.json (authStateToJS s1))) with hFSX
  have hfsP : FSX P = .file (.json (authStateToJS s1)) := by
    rw [hFSX]
    simp [FS.set]
  have hns1 : normalizeState (authStateToJS s1) th loadNow = some s1 :=
    normalizeState_authStateToJS_of_ready s1 th loadNow hthtrim hh
      (by simp [truthy, hnow])
      hapi.1 hpub.1 hpriv.1 hpubj.1 hprivj.1 hlast.1 hbase.1 hver.1
  unfold loadAgentAuthState
  rw [if_neg hh]
  obtain ⟨rest, hcand⟩ := stateReadCandidates_head dir th
    (jsOr opts.legacyStateDirs (.arr .nil))
  show loadLoop
      (stateReadCandidates dir th (jsOr opts.legacyStateDirs (.arr .nil)))
      th loadNow nowMs FSX = .ok (some s1) FSX
  rw [hcand]
  exact loadLoop_head_hit _ rest th loadNow nowMs FSX _ s1 hfsP hns1

/-- Witness for claim C1: a concrete round trip. -/
theorem load_after_save_roundtrip_witness :
    loadAgentAuthState (.str " alice ") {} ⟨none, "/home/u"⟩ "T2" 7
        (saveAgentAuthState (.str " alice ")
          (authStateToJS
            { handle := "bob", apiKey := .str "k", publicKeyPem := .str "",
              privateKeyPem := .str "", publicKeyJwk := .null,
              privateKeyJwk := .null, lastProvider := .str "ed25519",
              updatedAt := .str "old", baseUrl := .str "",
              verificationProvider := .str "" })
          {} ⟨none, "/home/u"⟩ "T1" (fun _ => .absent)).fsOut =
      .ok (some
          { handle := normalizeHandle (.str " alice "), apiKey := .str "k",
            publicKeyPem := .str "", privateKeyPem := .str "",
            publicKeyJwk := .null, privateKeyJwk := .null,
            lastProvider := .str "ed25519", updatedAt := .str "T1",
            baseUrl := .str "", verificationProvider := .str "" })
        (saveAgentAuthState (.str " alice ")
          (authStateToJS
            { handle := "bob", apiKey := .str "k", publicKeyPem := .str "",
              privateKeyPem := .str "", publicKeyJwk := .null,
              privateKeyJwk := .null, lastProvider := .str "ed25519",
              updatedAt := .str "old", baseUrl := .str "",
              verificationProvider := .str "" })
          {} ⟨none, "/home/u"⟩ "T1" (fun _ => .absent)).fsOut :=
  load_after_save_roundtrip (.str " alice ")
    { handle := "bob", apiKey := .str "k", publicKeyPem := .str "",
      privateKeyPem := .str "", publicKeyJwk := .null, privateKeyJwk := .null,
      lastProvider := .str "ed25519", updatedAt := .str "old",
      baseUrl := .str "", verificationProvider := .str "" }
    {} ⟨none, "/home/u"⟩ "T1" "T2" 7 (fun _ => .absent)
    (by decide)
    ⟨rfl, ⟨Or.inl rfl, rfl⟩, ⟨Or.inr rfl, rfl⟩, ⟨Or.inr rfl, rfl⟩,
      ⟨Or.inr rfl, rfl⟩, ⟨Or.inr rfl, rfl⟩, ⟨Or.inl rfl, rfl⟩,
      ⟨Or.inr rfl, rfl⟩, ⟨Or.inr rfl, rfl⟩⟩
    (by decide)

/-- Claim C7: for every handle that is empty after trimming (including
non-string handles), load returns null and clear returns false, both
without throwing and without touching the filesystem, while
`getAuthStateFilePath` and `saveAgentAuthState` throw the
handle-is-required error before any side effect. -/
theorem empty_handle_behavior
    (h : JSVal) (opts : Options) (cfg : EnvCfg) (now loadNow : String)
    (nowMs : Nat) (state : JSVal) (fs : FS)
    (hh : normalizeHandle h = "") :
    loadAgentAuthState h opts cfg loadNow nowMs fs = .ok none fs ∧
    clearAgentAuthState h opts cfg fs = .ok false fs ∧
    getAuthStateFilePath h opts cfg = .error "handle is required" ∧
    saveAgentAuthState h state opts cfg now fs =
      .err "handle is required" fs := by
  refine ⟨?_, ?_, ?_, ?_⟩
  · unfold loadAgentAuthState
    rw [if_pos hh]
  · unfold clearAgentAuthState
    rw [if_pos hh]
  · unfold getAuthStateFilePath
    rw [if_pos hh]
  · unfold saveAgentAuthState
    rw [if_pos hh]

/-- Witness for claim C7: a whitespace-only handle. -/
theorem empty_handle_behavior_witness :
    loadAgentAuthState (.str "  ") {} ⟨none, "/home/u"⟩ "L" 3
        (fun _ => .absent) = .ok none (fun _ => .absent) ∧
    clearAgentAuthState (.str "  ") {} ⟨none, "/home/u"⟩
        (fun _ => .absent) = .ok false (fun _ => .absent) ∧
    getAuthStateFilePath (.str "  ") {} ⟨none, "/home/u"⟩ =
      .error "handle is required" ∧
    saveAgentAuthState (.str "  ") .null {} ⟨none, "/home/u"⟩ "T"
        (fun _ => .absent) = .err "handle is required" (fun _ => .absent) :=
  empty_handle_behavior (.str "  ") {} ⟨none, "/home/u"⟩ "T" "L" 3 .null
    (fun _ => .absent) (by decide)

/-- Counterexample to claim C2 as stated: when the canonical `apiKey` is
present with the empty string and the legacy `api_key` is also present,
normalization uses the legacy value, not the canonical empty string. -/
theorem canonical_empty_string_yields_legacy :
    (normalizeState (jsObj [("apiKey", .str ""), ("api_key", .str "legacy")])
        "h" "T").map (fun r => r.apiKey) = some (.str "legacy") ∧
    JSVal.str "legacy" ≠ JSVal.str "" :=
  ⟨rfl, by simp⟩

/-- Inversion of a successful normalization: each field of the result is
its coalescing chain over the raw record, and the handle is non-empty. -/
theorem normalizeState_fields (raw : JSVal) (fb now : String) (st : AuthState)
    (hst : normalizeState raw fb now = some st) :
    st.handle = strTrim (jsToString (jsOr (jsGet raw "handle")
        (jsOr (.str fb) (.str "")))) ∧
    st.handle ≠ "" ∧
    st.apiKey = jsOr (jsGet raw "apiKey")
      (jsOr (jsGet raw "api_key") (.str "")) ∧
    st.publicKeyPem = jsOr (jsGet raw "publicKeyPem")
      (jsOr (jsGet raw "public_key_pem") (.str "")) ∧
    st.privateKeyPem = jsOr (jsGet raw "privateKeyPem")
      (jsOr (jsGet raw "private_key_pem") (.str "")) ∧
    st.publicKeyJwk = jsOr (jsGet raw "publicKeyJwk")
      (jsOr (jsGet raw "public_jwk") .null) ∧
    st.privateKeyJwk = jsOr (jsGet raw "privateKeyJwk")
      (jsOr (jsGet raw "private_jwk") .null) ∧
    st.lastProvider = jsOr (jsGet raw "lastProvider")
      (jsOr (jsGet raw "last_provider")
        (jsOr (jsGet raw "provider") (.str "ed25519"))) ∧
    st.updatedAt = jsOr (jsGet raw "updatedAt")
      (jsOr (jsGet raw "updated_at") (.str now)) ∧
    st.baseUrl = jsOr (jsGet raw "baseUrl")
      (jsOr (jsGet raw "base_url") (.str "")) ∧
    st.verificationProvider = jsOr (jsGet raw "verificationProvider")
      (jsOr (jsGet raw "verification_provider") (.str "")) := by
  unfold normalizeState at hst
  split at hst
  · exact absurd hst (by simp)
  · split at hst
    · exact absurd hst (by simp)
    · rename_i hg hne
      have := Option.some.inj hst
      subst this
      exact ⟨rfl, hne, rfl, rfl, rfl, rfl, rfl, rfl, rfl, rfl, rfl⟩

/-- Claim C2 (amended): canonical field names take precedence over their
legacy aliases whenever the canonical value is truthy; when the canonical
value is present but falsy (for example the empty string), the legacy
alias value is used instead when it is truthy.  (The counterexample shows
the empty-string canonical value does not take precedence.) -/
theorem canonical_precedence_when_truthy (raw : JSVal) (fb now : String)
    (st : AuthState) (hst : normalizeState raw fb now = some st) :
    (truthy (jsGet raw "apiKey") = true → st.apiKey = jsGet raw "apiKey") ∧
    (truthy (jsGet raw "apiKey") = false →
      truthy (jsGet raw "api_key") = true →
      st.apiKey = jsGet raw "api_key") ∧
    (truthy (jsGet raw "publicKeyPem") = true →
      st.publicKeyPem = jsGet raw "publicKeyPem") ∧
    (truthy (jsGet raw "publicKeyPem") = false →
      truthy (jsGet raw "public_key_pem") = true →
      st.publicKeyPem = jsGet raw "public_key_pem") ∧
    (truthy (jsGet raw "privateKeyPem") = true →
      st.privateKeyPem = jsGet raw "privateKeyPem") ∧
    (truthy (jsGet raw "privateKeyPem") = false →
      truthy (jsGet raw "private_key_pem") = true →
      st.privateKeyPem = jsGet raw "private_key_pem") ∧
    (truthy (jsGet raw "publicKeyJwk") = true →
      st.publicKeyJwk = jsGet raw "publicKeyJwk") ∧
    (truthy (jsGet raw "publicKeyJwk") = false →
      truthy (jsGet raw "public_jwk") = true →
      st.publicKeyJwk = jsGet raw "public_jwk") ∧
    (truthy (jsGet raw "privateKeyJwk") = true →
      st.privateKeyJwk = jsGet raw "privateKeyJwk") ∧
    (truthy (jsGet raw "privateKeyJwk") = false →
      truthy (jsGet raw "private_jwk") = true →
      st.privateKeyJwk = jsGet raw "private_jwk") ∧
    (truthy (jsGet raw "lastProvider") = true →
      st.lastProvider = jsGet raw "lastProvider") ∧
    (truthy (jsGet raw "lastProvider") = false →
      truthy (jsGet raw "last_provider") = true →
      st.lastProvider = jsGet raw "last_provider") ∧
    (truthy (jsGet raw "lastProvider") = false →
      truthy (jsGet raw "last_provider") = false →
      truthy (jsGet raw "provider") = true →
      st.lastProvider = jsGet raw "provider") ∧
    (truthy (jsGet raw "updatedAt") = true →
      st.updatedAt = jsGet raw "updatedAt") ∧
    (truthy (jsGet raw "updatedAt") = false →
      truthy (jsGet raw "updated_at") = true →
      st.updatedAt = jsGet raw "updated_at") ∧
    (truthy (jsGet raw "baseUrl") = true → st.baseUrl = jsGet raw "baseUrl") ∧
    (truthy (jsGet raw "baseUrl") = false →
      truthy (jsGet raw "base_url") = true →
      st.baseUrl = jsGet raw "base_url") ∧
    (truthy (jsGet raw "verificationProvider") = true →
      st.verificationProvider = jsGet raw "verificationProvider") ∧
    (truthy (jsGet raw "verificationProvider") = false →
      truthy (jsGet raw "verification_provider") = true →
      st.verificationProvider = jsGet raw "verification_provider") := by
  obtain ⟨-, -, hapi, hpub, hpriv, hpubj, hprivj, hlast, hupd, hbase, hver⟩ :=
    normalizeState_fields raw fb now st hst
  refine ⟨fun h1 => ?_, fun h1 h2 => ?_, fun h1 => ?_, fun h1 h2 => ?_,
    fun h1 => ?_, fun h1 h2 => ?_, fun h1 => ?_, fun h1 h2 => ?_,
    fun h1 => ?_, fun h1 h2 => ?_, fun h1 => ?_, fun h1 h2 => ?_,
    fun h1 h2 h3 => ?_, fun h1 => ?_, fun h1 h2 => ?_, fun h1 => ?_,
    fun h1 h2 => ?_, fun h1 => ?_, fun h1 h2 => ?_⟩
  · rw [hapi, jsOr_of_truthy _ h1]
  · rw [hapi, jsOr_of_falsy _ h1, jsOr_of_truthy _ h2]
  · rw [hpub, jsOr_of_truthy _ h1]
  · rw [hpub, jsOr_of_falsy _ h1, jsOr_of_truthy _ h2]
  · rw [hpriv, jsOr_of_truthy _ h1]
  · rw [hpriv, jsOr_of_falsy _ h1, jsOr_of_truthy _ h2]
  · rw [hpubj, jsOr_of_truthy _ h1]
  · rw [hpubj, jsOr_of_falsy _ h1, jsOr_of_truthy _ h2]
  · rw [hprivj, jsOr_of_truthy _ h1]
  · rw [hprivj, jsOr_of_falsy _ h1, jsOr_of_truthy _ h2]
  · rw [hlast, jsOr_of_truthy _ h1]
  · rw [hlast, jsOr_of_falsy _ h1, jsOr_of_truthy _ h2]
  · rw [hlast, jsOr_of_falsy _ h1, jsOr_of_falsy _ h2, jsOr_of_truthy _ h3]
  · rw [hupd, jsOr_of_truthy _ h1]
  · rw [hupd, jsOr_of_falsy _ h1, jsOr_of_truthy _ h2]
  · rw [hbase, jsOr_of_truthy _ h1]
  · rw [hbase, jsOr_of_falsy _ h1, jsOr_of_truthy _ h2]
  · rw [hver, jsOr_of_truthy _ h1]
  · rw [hver, jsOr_of_falsy _ h1, jsOr_of_truthy _ h2]

/-- Witness for the amended claim C2: a truthy canonical `apiKey` wins
over a present legacy `api_key`. -/
theorem canonical_precedence_when_truthy_witness :
    ({ handle := "h", apiKey := .str "zz", publicKeyPem := .str "",
       privateKeyPem := .str "", publicKeyJwk := .null,
       privateKeyJwk := .null, lastProvider := .str "ed25519",
       updatedAt := .str "T", baseUrl := .str "",
       verificationProvider := .str "" } : AuthState).apiKey =
      jsGet (jsObj [("apiKey", .str "zz"), ("api_key", .str "old")])
        "apiKey" :=
  (canonical_precedence_when_truthy
    (jsObj [("apiKey", .str "zz"), ("api_key", .str "old")]) "h" "T"
    { handle := "h", apiKey := .str "zz", publicKeyPem := .str "",
      privateKeyPem := .str "", publicKeyJwk := .null,
      privateKeyJwk := .null, lastProvider := .str "ed25519",
      updatedAt := .str "T", baseUrl := .str "",
      verificationProvider := .str "" } rfl).1 rfl

/-- Coalescing with a chain that bottoms out at the default yields a
truthy value or that default. -/
theorem jsOr_shape {b d : JSVal} (a : JSVal)
    (hb : truthy b = true ∨ b = d) :
    truthy (jsOr a b) = true ∨ jsOr a b = d := by
  by_cases ha : truthy a = true
  · left
    rw [jsOr_of_truthy _ ha]
    exact ha
  · rw [jsOr_of_falsy _ (by simpa using ha)]
    exact hb

theorem truthyOrDefault_ne_undef {v d : JSVal}
    (h : truthy v = true ∨ v = d) (hd : d ≠ .undefined) : v ≠ .undefined := by
  rcases h with ht | rfl
  · intro he
    rw [he] at ht
    exact absurd ht (by simp [truthy])
  · exact hd

/-- Every successful normalization produces a record of the invariant
shape. -/
theorem normalizeState_shape (raw : JSVal) (fb now : String) (st : AuthState)
    (hst : normalizeState raw fb now = some st) :
    NormalizedShape st now := by
  obtain ⟨-, hne, hapi, hpub, hpriv, hpubj, hprivj, hlast, hupd, hbase, hver⟩ :=
    normalizeState_fields raw fb now st hst
  have sapi := hapi ▸ jsOr_shape _ (jsOr_shape _ (Or.inr rfl))
  have spub := hpub ▸ jsOr_shape _ (jsOr_shape _ (Or.inr rfl))
  have spriv := hpriv ▸ jsOr_shape _ (jsOr_shape _ (Or.inr rfl))
  have spubj := hpubj ▸ jsOr_shape _ (jsOr_shape _ (Or.inr rfl))
  have sprivj := hprivj ▸ jsOr_shape _ (jsOr_shape _ (Or.inr rfl))
  have slast := hlast ▸ jsOr_shape _ (jsOr_shape _ (jsOr_shape _ (Or.inr rfl)))
  have supd := hupd ▸ jsOr_shape _ (jsOr_shape _ (Or.inr rfl))
  have sbase := hbase ▸ jsOr_shape _ (jsOr_shape _ (Or.inr rfl))
  have sver := hver ▸ jsOr_shape _ (jsOr_shape _ (Or.inr rfl))
  exact ⟨hne, sapi, spub, spriv, spubj, sprivj, slast, supd, sbase, sver,
    truthyOrDefault_ne_undef sapi (by intro he; cases he),
    truthyOrDefault_ne_undef spub (by intro he; cases he),
    truthyOrDefault_ne_undef spriv (by intro he; cases he),
    truthyOrDefault_ne_undef spubj (by intro he; cases he),
    truthyOrDefault_ne_undef sprivj (by intro he; cases he),
    truthyOrDefault_ne_undef slast (by intro he; cases he),
    truthyOrDefault_ne_undef supd (by intro he; cases he),
    truthyOrDefault_ne_undef sbase (by intro he; cases he),
    truthyOrDefault_ne_undef sver (by intro he; cases he)⟩

/-- Any state the load loop returns came out of `normalizeState` with the
loop's fallback handle and timestamp. -/
theorem loadLoop_some_from_normalize (fb now : String) (ms : Nat)
    (st : AuthState) :
    ∀ (l : List String) (fs fs2 : FS),
      loadLoop l fb now ms fs = .ok (some st) fs2 →
      ∃ v, normalizeState v fb now = some st := by
  intro l
  induction l with
  | nil =>
    intro fs fs2 hres
    rw [loadLoop] at hres
    cases hres
  | cons c rest ih =>
    intro fs fs2 hres
    rw [loadLoop] at hres
    cases hfc : fs c with
    | absent =>
      simp only [safeReadState, hfc] at hres
      exact ih fs fs2 hres
    | ioError code =>
      simp only [safeReadState, hfc] at hres
      cases hres
    | file d =>
      cases d with
      | garbage g =>
        simp only [safeReadState, hfc] at hres
        exact ih _ fs2 hres
      | json v =>
        simp only [safeReadState, hfc] at hres
        cases hnv : normalizeState v fb now with
        | some st2 =>
          rw [hnv] at hres
          cases hres
          exact ⟨v, hnv⟩
        | none =>
          rw [hnv] at hres
          exact ih fs fs2 hres

/-- The JSON round-trip never turns a present value into `undefined`. -/
theorem jsonRound_ne_undefined {v : JSVal} (h : v ≠ .undefined) :
    jsonRound v ≠ .undefined := by
  cases v with
  | undefined => exact absurd rfl h
  | null => intro he; cases he
  | bool b => intro he; cases he
  | num n => intro he; cases he
  | str s => intro he; cases he
  | arr xs => intro he; cases he
  | obj fields => intro he; cases he

/-- Serializing a record none of whose field values is `undefined` keeps
all ten fields, each holding the round-trip of its value. -/
theorem jsonRound_authStateToJS_fields (s : AuthState)
    (hapi : s.apiKey ≠ .undefined)
    (hpub : s.publicKeyPem ≠ .undefined)
    (hpriv : s.privateKeyPem ≠ .undefined)
    (hpubj : s.publicKeyJwk ≠ .undefined)
    (hprivj : s.privateKeyJwk ≠ .undefined)
    (hlast : s.lastProvider ≠ .undefined)
    (hupd : s.updatedAt ≠ .undefined)
    (hbase : s.baseUrl ≠ .undefined)
    (hver : s.verificationProvider ≠ .undefined) :
    jsonRound (authStateToJS s) = authStateToJS
      { handle := s.handle,
        apiKey := jsonRound s.apiKey,
        publicKeyPem := jsonRound s.publicKeyPem,
        privateKeyPem := jsonRound s.privateKeyPem,
        publicKeyJwk := jsonRound s.publicKeyJwk,
        privateKeyJwk := jsonRound s.privateKeyJwk,
        lastProvider := jsonRound s.lastProvider,
        updatedAt := jsonRound s.updatedAt,
        baseUrl := jsonRound s.baseUrl,
        verificationProvider := jsonRound s.verificationProvider } := by
  have hobj : ∀ f : JSFields, jsonRound (.obj f) = .obj (jsonRoundObj f) :=
    fun f => rfl
  unfold authStateToJS jsObj
  simp only [JSFields.ofList]
  rw [hobj]
  rw [jsonRoundObj_cons _ _ _ (by intro he; cases he),
    jsonRoundObj_cons _ _ _ hapi, jsonRoundObj_cons _ _ _ hpub,
    jsonRoundObj_cons _ _ _ hpriv, jsonRoundObj_cons _ _ _ hpubj,
    jsonRoundObj_cons _ _ _ hprivj, jsonRoundObj_cons _ _ _ hlast,
    jsonRoundObj_cons _ _ _ hupd, jsonRoundObj_cons _ _ _ hbase,
    jsonRoundObj_cons _ _ _ hver]
  rfl

/-- Counterexample to claim C9 as stated: saving a state that fails to
normalize (here the JavaScript `null`) writes a record holding only
`handle` and `updatedAt`; the written object has no `apiKey` field at
all, so not every record written by `saveAgentAuthState` has all ten
fields. -/
theorem save_writes_partial_record_on_invalid_state :
    (saveAgentAuthState (.str "h") .null {} ⟨none, "/home/u"⟩ "T"
        (fun _ => .absent)).fsOut
      "/home/u/.openclaw/contextoverflow/auth/h.json" =
      .file (.json (jsObj [("handle", .str "h"), ("updatedAt", .str "T")])) ∧
    jsGet (jsObj [("handle", .str "h"), ("updatedAt", .str "T")]) "apiKey" =
      .undefined :=
  ⟨rfl, rfl⟩

/-- Claim C9 (amended): every non-null record produced by normalization —
and hence every record returned by `loadAgentAuthState` — has a non-empty
handle and all ten fields present with the documented defaults, never an
absent or `undefined` field; `saveAgentAuthState` writes such a record
when the supplied state normalizes, but when normalization yields null
the written record holds only `handle` and `updatedAt`. -/
theorem normalized_record_invariant :
    (∀ (raw : JSVal) (fb now : String) (st : AuthState),
      normalizeState raw fb now = some st → NormalizedShape st now) ∧
    (∀ (h : JSVal) (opts : Options) (cfg : EnvCfg) (loadNow : String)
      (ms : Nat) (fs fs2 : FS) (st : AuthState),
      loadAgentAuthState h opts cfg loadNow ms fs = .ok (some st) fs2 →
      NormalizedShape st loadNow) ∧
    (∀ (h state : JSVal) (opts : Options) (cfg : EnvCfg) (now : String)
      (fs : FS),
      normalizeHandle h ≠ "" →
      normalizeState state (normalizeHandle h) now = none →
      (saveAgentAuthState h state opts cfg now fs).fsOut
          (stateFilePath (normalizeStateDir opts.stateDir cfg)
            (normalizeHandle h)) =
        .file (.json (jsObj [("handle", .str (normalizeHandle h)),
          ("updatedAt", .str now)]))) ∧
    (∀ (h state : JSVal) (opts : Options) (cfg : EnvCfg) (now : String)
      (fs : FS) (ns : AuthState),
      normalizeHandle h ≠ "" →
      normalizeState state (normalizeHandle h) now = some ns →
      (saveAgentAuthState h state opts cfg now fs).fsOut
          (stateFilePath (normalizeStateDir opts.stateDir cfg)
            (normalizeHandle h)) =
        .file (.json (jsonRound
          (savedRecord state (normalizeHandle h) now))) ∧
      jsGet (jsonRound (savedRecord state (normalizeHandle h) now))
        "handle" = .str (normalizeHandle h) ∧
      jsGet (jsonRound (savedRecord state (normalizeHandle h) now))
        "updatedAt" = .str now ∧
      jsGet (jsonRound (savedRecord state (normalizeHandle h) now))
        "apiKey" ≠ .undefined ∧
      jsGet (jsonRound (savedRecord state (normalizeHandle h) now))
        "publicKeyPem" ≠ .undefined ∧
      jsGet (jsonRound (savedRecord state (normalizeHandle h) now))
        "privateKeyPem" ≠ .undefined ∧
      jsGet (jsonRound (savedRecord state (normalizeHandle h) now))
        "publicKeyJwk" ≠ .undefined ∧
      jsGet (jsonRound (savedRecord state (normalizeHandle h) now))
        "privateKeyJwk" ≠ .undefined ∧
      jsGet (jsonRound (savedRecord state (normalizeHandle h) now))
        "lastProvider" ≠ .undefined ∧
      jsGet (jsonRound (savedRecord state (normalizeHandle h) now))
        "baseUrl" ≠ .undefined ∧
      jsGet (jsonRound (savedRecord state (normalizeHandle h) now))
        "verificationProvider" ≠ .undefined) := by
  refine ⟨fun raw fb now st hst => normalizeState_shape raw fb now st hst,
    ?_, ?_, ?_⟩
  · intro h opts cfg loadNow ms fs fs2 st hload
    unfold loadAgentAuthState at hload
    by_cases hh : normalizeHandle h = ""
    · rw [if_pos hh] at hload
      cases hload
    · rw [if_neg hh] at hload
      obtain ⟨v, hv⟩ := loadLoop_some_from_normalize (normalizeHandle h)
        loadNow ms st _ fs fs2 hload
      exact normalizeState_shape v (normalizeHandle h) loadNow st hv
  · intro h state opts cfg now fs hh hnone
    unfold saveAgentAuthState
    rw [if_neg hh]
    unfold savedRecord
    rw [hnone]
    show FS.set fs _ _ _ = _
    simp [FS.set]
    rfl
  · intro h state opts cfg now fs ns hh hsome
    have hsaved : savedRecord state (normalizeHandle h) now =
        authStateToJS { ns with handle := normalizeHandle h,
                                updatedAt := .str now } := by
      unfold savedRecord
      rw [hsome]
    obtain ⟨-, -, -, -, -, -, -, -, -, -,
      napi, npub, npriv, npubj, nprivj, nlast, -, nbase, nver⟩ :=
      normalizeState_shape state (normalizeHandle h) now ns hsome
    have hW := jsonRound_authStateToJS_fields
      { ns with handle := normalizeHandle h, updatedAt := .str now }
      napi npub npriv npubj nprivj nlast (by intro he; cases he) nbase nver
    refine ⟨?_, ?_, ?_, ?_, ?_, ?_, ?_, ?_, ?_, ?_, ?_⟩
    · unfold saveAgentAuthState
      rw [if_neg hh]
      show FS.set fs _ _ _ = _
      simp [FS.set]
    · rw [hsaved, hW]
      rfl
    · rw [hsaved, hW]
      rfl
    · rw [hsaved, hW]
      exact jsonRound_ne_undefined napi
    · rw [hsaved, hW]
      exact jsonRound_ne_undefined npub
    · rw [hsaved, hW]
      exact jsonRound_ne_undefined npriv
    · rw [hsaved, hW]
      exact jsonRound_ne_undefined npubj
    · rw [hsaved, hW]
      exact jsonRound_ne_undefined nprivj
    · rw [hsaved, hW]
      exact jsonRound_ne_undefined nlast
    · rw [hsaved, hW]
      exact jsonRound_ne_undefined nbase
    · rw [hsaved, hW]
      exact jsonRound_ne_undefined nver

/-- Witness for the amended claim C9: a normalized record has the
invariant shape, and saving a normalizing state writes the full record
to the primary path, its `apiKey` field present. -/
theorem normalized_record_invariant_witness :
    NormalizedShape
      { handle := "h", apiKey := .str "", publicKeyPem := .str "",
        privateKeyPem := .str "", publicKeyJwk := .null,
        privateKeyJwk := .null, lastProvider := .str "ed25519",
        updatedAt := .str "T", baseUrl := .str "",
        verificationProvider := .str "" } "T" ∧
    (saveAgentAuthState (.str "h")
        (jsObj [("handle", .str "h"), ("apiKey", .str "k")]) {}
        ⟨none, "/home/u"⟩ "T" (fun _ => .absent)).fsOut
      "/home/u/.openclaw/contextoverflow/auth/h.json" =
      .file (.json (jsonRound (savedRecord
        (jsObj [("handle", .str "h"), ("apiKey", .str "k")]) "h" "T"))) ∧
    jsGet (jsonRound (savedRecord
        (jsObj [("handle", .str "h"), ("apiKey", .str "k")]) "h" "T"))
      "apiKey" ≠ .undefined := by
  have hx := normalized_record_invariant.2.2.2 (.str "h")
    (jsObj [("handle", .str "h"), ("apiKey", .str "k")]) {}
    ⟨none, "/home/u"⟩ "T" (fun _ => .absent)
    { handle := "h", apiKey := .str "k", publicKeyPem := .str "",
      privateKeyPem := .str "", publicKeyJwk := .null,
      privateKeyJwk := .null, lastProvider := .str "ed25519",
      updatedAt := .str "T", baseUrl := .str "",
      verificationProvider := .str "" }
    (by decide) rfl
  exact ⟨normalized_record_invariant.1 (jsObj [("handle", .str "h")]) "" "T"
    { handle := "h", apiKey := .str "", publicKeyPem := .str "",
      privateKeyPem := .str "", publicKeyJwk := .null,
      privateKeyJwk := .null, lastProvider := .str "ed25519",
      updatedAt := .str "T", baseUrl := .str "",
      verificationProvider := .str "" } rfl, hx.1, hx.2.2.2.1⟩

/-- Normalization of object content is decided entirely by the effective
handle string: empty gives null, non-empty gives a record carrying it. -/
theorem normalizeState_obj (flds : JSFields) (fb now : String) :
    (strTrim (jsToString (jsOr (jsGet (.obj flds) "handle")
        (jsOr (.str fb) (.str "")))) = "" →
      normalizeState (.obj flds) fb now = none) ∧
    (strTrim (jsToString (jsOr (jsGet (.obj flds) "handle")
        (jsOr (.str fb) (.str "")))) ≠ "" →
      ∃ st, normalizeState (.obj flds) fb now = some st ∧
        st.handle = strTrim (jsToString (jsOr (jsGet (.obj flds) "handle")
          (jsOr (.str fb) (.str ""))))) := by
  constructor
  · intro he
    unfold normalizeState
    rw [if_neg (by simp [truthy, jsTypeofObject]), if_pos he]
  · intro hne
    unfold normalizeState
    rw [if_neg (by simp [truthy, jsTypeofObject]), if_neg hne]
    exact ⟨_, rfl, rfl⟩

/-- Counterexample to claim C10 as stated: a state file whose content
parses to the JSON object with a whitespace-only `handle` field makes
`loadAgentAuthState` return null, even though the content is an object;
the file is left in place (no corrupt rename), so the
falsy-normalization case does arise from object content. -/
theorem object_with_whitespace_handle_loads_null :
    jsTypeofObject (jsObj [("handle", .str " ")]) = true ∧
    loadAgentAuthState (.str "alice") {} ⟨none, "/home/u"⟩ "T" 9
        (fun q =>
          if q = "/home/u/.openclaw/contextoverflow/auth/alice.json"
          then .file (.json (jsObj [("handle", .str " ")]))
          else .absent) =
      .ok none
        (fun q =>
          if q = "/home/u/.openclaw/contextoverflow/auth/alice.json"
          then .file (.json (jsObj [("handle", .str " ")]))
          else .absent) :=
  ⟨rfl, rfl⟩

/-- Claim C10 (amended): during load the trimmed requested handle is the
fallback, so a primary state file whose content parses to a JSON object
loads successfully whenever its `handle` field is falsy (absent, null or
the empty string) — the record then carries the requested handle — or is
truthy with a string form that trims non-empty — the record then carries
that stored trimmed handle, not the requested one.  A truthy `handle`
whose string form trims to empty normalizes to null: object content can
be treated as "not found", and such a file is not renamed aside. -/
theorem load_fallback_handle_behavior
    (h : JSVal) (flds : JSFields) (opts : Options) (cfg : EnvCfg)
    (now : String) (ms : Nat) (fs : FS)
    (hh : normalizeHandle h ≠ "")
    (hfs : fs (stateFilePath (normalizeStateDir opts.stateDir cfg)
      (normalizeHandle h)) = .file (.json (.obj flds))) :
    (truthy (jsGet (.obj flds) "handle") = false →
      ∃ st, loadAgentAuthState h opts cfg now ms fs = .ok (some st) fs ∧
        st.handle = normalizeHandle h) ∧
    (truthy (jsGet (.obj flds) "handle") = true →
      strTrim (jsToString (jsGet (.obj flds) "handle")) ≠ "" →
      ∃ st, loadAgentAuthState h opts cfg now ms fs = .ok (some st) fs ∧
        st.handle = strTrim (jsToString (jsGet (.obj flds) "handle"))) ∧
    (truthy (jsGet (.obj flds) "handle") = true →
      strTrim (jsToString (jsGet (.obj flds) "handle")) = "" →
      normalizeState (.obj flds) (normalizeHandle h) now = none ∧
      safeReadState fs
          (stateFilePath (normalizeStateDir opts.stateDir cfg)
            (normalizeHandle h))
          (normalizeHandle h) now ms = .ok none fs) := by
  set th := normalizeHandle h with hth
  set dir := normalizeStateDir opts.stateDir cfg with hdir
  set P := stateFilePath dir th with hP
  obtain ⟨rest, hcand⟩ := stateReadCandidates_head dir th
    (jsOr opts.legacyStateDirs (.arr .nil))
  have hload : ∀ st, normalizeState (.obj flds) th now = some st →
      loadAgentAuthState h opts cfg now ms fs = .ok (some st) fs := by
    intro st hnv
    unfold loadAgentAuthState
    rw [if_neg hh]
    show loadLoop
        (stateReadCandidates dir th (jsOr opts.legacyStateDirs (.arr .nil)))
        th now ms fs = .ok (some st) fs
    rw [hcand]
    exact loadLoop_head_hit P rest th now ms fs _ st hfs hnv
  refine ⟨?_, ?_, ?_⟩
  · intro hfalsy
    have ht : truthy (JSVal.str th) = true := by simp [truthy, hh]
    have heff : jsOr (jsGet (.obj flds) "handle")
        (jsOr (.str th) (.str "")) = .str th := by
      rw [jsOr_of_falsy _ hfalsy, jsOr_of_truthy _ ht]
    have hne2 : strTrim (jsToString (jsOr (jsGet (.obj flds) "handle")
        (jsOr (.str th) (.str "")))) ≠ "" := by
      rw [heff]
      show strTrim th ≠ ""
      rw [normalizeHandle_trim h]
      exact hh
    obtain ⟨st, hst, hsth⟩ := (normalizeState_obj flds th now).2 hne2
    refine ⟨st, hload st hst, ?_⟩
    rw [hsth, heff]
    show strTrim th = th
    exact normalizeHandle_trim h
  · intro htruthy hne
    have heff : jsOr (jsGet (.obj flds) "handle")
        (jsOr (.str th) (.str "")) = jsGet (.obj flds) "handle" :=
      jsOr_of_truthy _ htruthy
    have hne2 : strTrim (jsToString (jsOr (jsGet (.obj flds) "handle")
        (jsOr (.str th) (.str "")))) ≠ "" := by
      rw [heff]
      exact hne
    obtain ⟨st, hst, hsth⟩ := (normalizeState_obj flds th now).2 hne2
    refine ⟨st, hload st hst, ?_⟩
    rw [hsth, heff]
  · intro htruthy hemp
    have heff : jsOr (jsGet (.obj flds) "handle")
        (jsOr (.str th) (.str "")) = jsGet (.obj flds) "handle" :=
      jsOr_of_truthy _ htruthy
    have hemp2 : strTrim (jsToString (jsOr (jsGet (.obj flds) "handle")
        (jsOr (.str th) (.str "")))) = "" := by
      rw [heff]
      exact hemp
    have hnone := (normalizeState_obj flds th now).1 hemp2
    refine ⟨hnone, ?_⟩
    unfold safeReadState
    rw [hfs]
    show OpResult.ok (normalizeState (.obj flds) th now) fs = _
    rw [hnone]

/-- Witness for the amended claim C10: loading a file whose stored handle
is a different non-empty string than the requested handle yields a state,
and that state carries the stored handle. -/
theorem load_fallback_handle_behavior_witness :
    (loadAgentAuthState (.str "alice") {} ⟨none, "/home/u"⟩ "T" 9
        (fun q =>
          if q = "/home/u/.openclaw/contextoverflow/auth/alice.json"
          then .file (.json (.obj (.cons "handle" (.str "stored") .nil)))
          else .absent)).res.map (Option.map AuthState.handle) =
      some (some "stored") := by
  obtain ⟨st, hl, hs⟩ := (load_fallback_handle_behavior (.str "alice")
    (.cons "handle" (.str "stored") .nil) {} ⟨none, "/home/u"⟩ "T" 9
    (fun q =>
      if q = "/home/u/.openclaw/contextoverflow/auth/alice.json"
      then .file (.json (.obj (.cons "handle" (.str "stored") .nil)))
      else .absent)
    (by decide) rfl).2.1 rfl (by decide)
  rw [hl]
  simp only [OpResult.res, Option.map]
  rw [hs]
  rfl

/-- Claim C4: `hasValidApiKey` returns false — without invoking the
collaborator — when the key is falsy or the collaborator is not a
function; a collaborator throw is swallowed into false; and the result is
true exactly when the key is truthy, the collaborator returns a result
reporting ok whose response payload is a truthy object without a truthy
`error` field and with a truthy `data` field.  The function is total, so
no collaborator error ever propagates. -/
theorem hasValidApiKey_spec (p : HVKParams) :
    ((truthy p.apiKey = false ∨ p.requestJSON = none) →
      hasValidApiKey p = ⟨false, false⟩) ∧
    (∀ f, p.requestJSON = some f → truthy p.apiKey = true →
      f ⟨p.baseUrl, "GET",
          (match p.path with | .undefined => .str "/me" | v => v),
          p.apiKey, p.timeoutMs⟩ = .throws →
      hasValidApiKey p = ⟨false, true⟩) ∧
    ((hasValidApiKey p).result = true ↔
      ∃ f out, p.requestJSON = some f ∧ truthy p.apiKey = true ∧
        f ⟨p.baseUrl, "GET",
            (match p.path with | .undefined => .str "/me" | v => v),
            p.apiKey, p.timeoutMs⟩ = .returns out ∧
        truthy out = true ∧ truthy (jsGet out "ok") = true ∧
        truthy (jsGet out "response") = true ∧
        jsTypeofObject (jsGet out "response") = true ∧
        truthy (jsGet (jsGet out "response") "error") = false ∧
        truthy (jsGet (jsGet out "response") "data") = true) := by
  refine ⟨?_, ?_, ?_⟩
  · rintro (hfalse | hnone)
    · unfold hasValidApiKey
      rw [if_pos (by simp [hfalse])]
    · by_cases ha : truthy p.apiKey = true
      · unfold hasValidApiKey
        rw [if_neg (by simp [ha]), hnone]
      · unfold hasValidApiKey
        rw [if_pos (by simpa using ha)]
  · intro f hr ha hthrow
    simp [hasValidApiKey, ha, hr, hthrow]
  · constructor
    · intro hres
      by_cases ha : truthy p.apiKey = true
      · cases hr : p.requestJSON with
        | none => simp [hasValidApiKey, ha, hr] at hres
        | some f =>
          cases hout : f ⟨p.baseUrl, "GET",
              (match p.path with | .undefined => .str "/me" | v => v),
              p.apiKey, p.timeoutMs⟩ with
          | throws => simp [hasValidApiKey, ha, hr, hout] at hres
          | returns out =>
            by_cases t1 : truthy out = true
            · by_cases t2 : truthy (jsGet out "ok") = true
              · by_cases t3 : truthy (jsGet out "response") = true
                · by_cases t4 : jsTypeofObject (jsGet out "response") = true
                  · by_cases t5 :
                        truthy (jsGet (jsGet out "response") "error") = true
                    · simp [hasValidApiKey, ha, hr, hout, t1, t2, t3, t4, t5]
                        at hres
                    · simp [hasValidApiKey, ha, hr, hout, t1, t2, t3, t4, t5]
                        at hres
                      exact ⟨f, out, rfl, ha, hout, t1, t2, t3, t4,
                        by simpa using t5, hres⟩
                  · simp [hasValidApiKey, ha, hr, hout, t1, t2, t3, t4]
                      at hres
                · simp [hasValidApiKey, ha, hr, hout, t1, t2, t3] at hres
              · simp [hasValidApiKey, ha, hr, hout, t1, t2] at hres
            · simp [hasValidApiKey, ha, hr, hout, t1] at hres
      · simp [hasValidApiKey, ha] at hres
    · rintro ⟨f, out, hr, ha, hout, t1, t2, t3, t4, t5, t6⟩
      simp [hasValidApiKey, ha, hr, hout, t1, t2, t3, t4, t5, t6]

/-- Witness for claim C4: a successful check. -/
theorem hasValidApiKey_spec_witness :
    (hasValidApiKey
      { apiKey := .str "k",
        requestJSON := some (fun _ => .returns (jsObj [("ok", .bool true),
          ("response", jsObj [("data", .num 1)])])) }).result = true :=
  (hasValidApiKey_spec
    { apiKey := .str "k",
      requestJSON := some (fun _ => .returns (jsObj [("ok", .bool true),
        ("response", jsObj [("data", .num 1)])])) }).2.2.mpr
    ⟨_, _, rfl, rfl, rfl, rfl, rfl, rfl, rfl, rfl, rfl⟩

theorem JSList.toList_ofList (l : List JSVal) :
    (JSList.ofList l).toList = l := by
  induction l with
  | nil => rfl
  | cons v rest ih => simp [JSList.ofList, JSList.toList, ih]

/-- With an ordered list of non-empty legacy directory names, the
candidate list is the primary path followed by one path per legacy
directory, in the supplied order. -/
theorem stateReadCandidates_of_dirs (dir th : String) (dirs : List String)
    (hdirs : ∀ d ∈ dirs, d ≠ "") :
    stateReadCandidates dir th (.arr (JSList.ofList (dirs.map .str))) =
      stateFilePath dir th :: dirs.map fun d => stateFilePath d th := by
  simp only [stateReadCandidates]
  rw [JSList.toList_ofList]
  congr 1
  induction dirs with
  | nil => rfl
  | cons d rest ih =>
    have hd := hdirs d (List.mem_cons_self d rest)
    simp only [List.map_cons, List.filterMap_cons]
    rw [if_neg hd]
    rw [ih fun d2 hd2 => hdirs d2 (List.mem_cons_of_mem d hd2)]

/-- Claim C5: with legacy directories supplied in order, load consults
the primary path first and then one candidate per legacy directory in the
supplied order, and returns exactly the first candidate that exists and
normalizes to a valid record (nothing is merged); it returns null when no
candidate yields a valid state. -/
theorem load_first_match_wins
    (h : JSVal) (dirs : List String) (opts : Options) (cfg : EnvCfg)
    (now : String) (ms : Nat) (fs : FS)
    (hh : normalizeHandle h ≠ "")
    (hleg : opts.legacyStateDirs = jsArr (dirs.map .str))
    (hdirs : ∀ d ∈ dirs, d ≠ "")
    (herr : ∀ p ∈ (stateFilePath (normalizeStateDir opts.stateDir cfg)
          (normalizeHandle h) ::
        dirs.map fun d => stateFilePath d (normalizeHandle h)),
      (fs p).isErr = false) :
    stateReadCandidates (normalizeStateDir opts.stateDir cfg)
        (normalizeHandle h) (jsOr opts.legacyStateDirs (.arr .nil)) =
      (stateFilePath (normalizeStateDir opts.stateDir cfg)
          (normalizeHandle h) ::
        dirs.map fun d => stateFilePath d (normalizeHandle h)) ∧
    ∃ fs2, loadAgentAuthState h opts cfg now ms fs =
      .ok (firstValidState fs (normalizeHandle h) now
        (stateFilePath (normalizeStateDir opts.stateDir cfg)
            (normalizeHandle h) ::
          dirs.map fun d => stateFilePath d (normalizeHandle h))) fs2 := by
  set th := normalizeHandle h with hth
  set dir := normalizeStateDir opts.stateDir cfg with hdir
  have hjso : jsOr opts.legacyStateDirs (.arr .nil) = opts.legacyStateDirs :=
    jsOr_of_truthy _ (by rw [hleg]; rfl)
  have hc : stateReadCandidates dir th (jsOr opts.legacyStateDirs (.arr .nil)) =
      stateFilePath dir th :: dirs.map fun d => stateFilePath d th := by
    rw [hjso, hleg]
    exact stateReadCandidates_of_dirs dir th dirs hdirs
  refine ⟨hc, ?_⟩
  have hlast : ∀ p ∈ (stateFilePath dir th ::
      dirs.map fun d => stateFilePath d th), lastChar p = some 'n' := by
    intro p hp
    rcases List.mem_cons.mp hp with rfl | hp2
    · exact stateFilePath_lastChar dir th
    · obtain ⟨d, _, rfl⟩ := List.mem_map.mp hp2
      exact stateFilePath_lastChar d th
  unfold loadAgentAuthState
  rw [if_neg hh]
  show ∃ fs2, loadLoop
      (stateReadCandidates dir th (jsOr opts.legacyStateDirs (.arr .nil)))
      th now ms fs = _
  rw [hc]
  exact loadLoop_ok th now ms _ fs hlast herr

/-- Witness for claim C5: with two legacy directories and a valid file
only in the second one, load returns that record. -/
theorem load_first_match_wins_witness :
    (loadAgentAuthState (.str "alice")
        { legacyStateDirs := jsArr [.str "/legacyA", .str "/legacyB"] }
        ⟨none, "/home/u"⟩ "T" 9
        (fun q =>
          if q = "/legacyB/alice.json"
          then .file (.json (jsObj [("handle", .str "alice"),
            ("apiKey", .str "LB")]))
          else .absent)).res =
      some (firstValidState
        (fun q =>
          if q = "/legacyB/alice.json"
          then .file (.json (jsObj [("handle", .str "alice"),
            ("apiKey", .str "LB")]))
          else .absent)
        "alice" "T"
        ["/home/u/.openclaw/contextoverflow/auth/alice.json",
         "/legacyA/alice.json", "/legacyB/alice.json"]) ∧
    firstValidState
        (fun q =>
          if q = "/legacyB/alice.json"
          then .file (.json (jsObj [("handle", .str "alice"),
            ("apiKey", .str "LB")]))
          else .absent)
        "alice" "T"
        ["/home/u/.openclaw/contextoverflow/auth/alice.json",
         "/legacyA/alice.json", "/legacyB/alice.json"] =
      some { handle := "alice", apiKey := .str "LB",
             publicKeyPem := .str "", privateKeyPem := .str "",
             publicKeyJwk := .null, privateKeyJwk := .null,
             lastProvider := .str "ed25519", updatedAt := .str "T",
             baseUrl := .str "", verificationProvider := .str "" } := by
  obtain ⟨fs2, hl⟩ := (load_first_match_wins (.str "alice")
    ["/legacyA", "/legacyB"]
    { legacyStateDirs := jsArr [.str "/legacyA", .str "/legacyB"] }
    ⟨none, "/home/u"⟩ "T" 9
    (fun q =>
      if q = "/legacyB/alice.json"
      then .file (.json (jsObj [("handle", .str "alice"),
        ("apiKey", .str "LB")]))
      else .absent)
    (by decide) rfl (by decide) (by decide)).2
  exact ⟨by rw [hl]; rfl, rfl⟩

/-- Claim C3: when every candidate is missing or holds unparseable
content, load never throws and returns null; each unparseable candidate
file is renamed to its timestamped corrupt-backup path, so the original
path no longer exists while the content survives at the backup path. -/
theorem corrupt_file_quarantine
    (h : JSVal) (opts : Options) (cfg : EnvCfg) (now : String) (ms : Nat)
    (fs : FS)
    (hh : normalizeHandle h ≠ "")
    (hmiss : ∀ p ∈ stateReadCandidates (normalizeStateDir opts.stateDir cfg)
        (normalizeHandle h) (jsOr opts.legacyStateDirs (.arr .nil)),
      fs p = .absent ∨ (fs p).isGarbage = true) :
    ∃ fs2, loadAgentAuthState h opts cfg now ms fs = .ok none fs2 ∧
      (∀ p ∈ stateReadCandidates (normalizeStateDir opts.stateDir cfg)
          (normalizeHandle h) (jsOr opts.legacyStateDirs (.arr .nil)),
        fs2 p = .absent) ∧
      (∀ p ∈ stateReadCandidates (normalizeStateDir opts.stateDir cfg)
          (normalizeHandle h) (jsOr opts.legacyStateDirs (.arr .nil)),
        ∀ g, fs p = .file (.garbage g) →
          fs2 (corruptPath p ms) = .file (.garbage g)) := by
  set th := normalizeHandle h with hth
  set dir := normalizeStateDir opts.stateDir cfg with hdir
  set cands := stateReadCandidates dir th
    (jsOr opts.legacyStateDirs (.arr .nil)) with hcands
  have hlast := mem_stateReadCandidates_lastChar dir th
    (jsOr opts.legacyStateDirs (.arr .nil))
  obtain ⟨fs2, hres, hb, hc, -⟩ :=
    loadLoop_allMissing th now ms cands fs hlast hmiss
  refine ⟨fs2, ?_, hb, hc⟩
  unfold loadAgentAuthState
  rw [if_neg hh]
  exact hres

/-- Witness for claim C3: an unparseable primary file is renamed aside
and load returns null. -/
theorem corrupt_file_quarantine_witness :
    (loadAgentAuthState (.str "alice") {} ⟨none, "/home/u"⟩ "T" 9
        (fun q =>
          if q = "/home/u/.openclaw/contextoverflow/auth/alice.json"
          then .file (.garbage "oops") else .absent)).res = some none ∧
    (loadAgentAuthState (.str "alice") {} ⟨none, "/home/u"⟩ "T" 9
        (fun q =>
          if q = "/home/u/.openclaw/contextoverflow/auth/alice.json"
          then .file (.garbage "oops") else .absent)).fsOut
      "/home/u/.openclaw/contextoverflow/auth/alice.json" = .absent ∧
    (loadAgentAuthState (.str "alice") {} ⟨none, "/home/u"⟩ "T" 9
        (fun q =>
          if q = "/home/u/.openclaw/contextoverflow/auth/alice.json"
          then .file (.garbage "oops") else .absent)).fsOut
      "/home/u/.openclaw/contextoverflow/auth/alice.json.corrupt-9" =
      .file (.garbage "oops") := by
  obtain ⟨fs2, hres, hb, hc⟩ := corrupt_file_quarantine (.str "alice") {}
    ⟨none, "/home/u"⟩ "T" 9
    (fun q =>
      if q = "/home/u/.openclaw/contextoverflow/auth/alice.json"
      then .file (.garbage "oops") else .absent)
    (by decide)
    (by intro p hp
        rcases List.mem_singleton.mp hp with rfl
        right
        rfl)
  rw [hres]
  refine ⟨rfl, ?_, ?_⟩
  · exact hb _ (List.mem_singleton.mpr rfl)
  · exact hc _ (List.mem_singleton.mpr rfl) "oops" rfl

/-- Claim C6: for a non-empty handle, clear attempts to delete the
primary and every legacy candidate; when no candidate errors it returns
true exactly when at least one candidate file existed (false when none),
deleting them all and touching nothing else; a missing file is not an
error, while the first erroring candidate makes the call throw that
error with the earlier candidates already deleted and the later ones
untouched. -/
theorem clear_deletes_and_reports
    (h : JSVal) (opts : Options) (cfg : EnvCfg) (fs : FS)
    (hh : normalizeHandle h ≠ "") :
    ((∀ p ∈ stateReadCandidates (normalizeStateDir opts.stateDir cfg)
        (normalizeHandle h) (jsOr opts.legacyStateDirs (.arr .nil)),
      (fs p).isErr = false) →
      ∃ fs2, clearAgentAuthState h opts cfg fs =
        .ok ((stateReadCandidates (normalizeStateDir opts.stateDir cfg)
          (normalizeHandle h) (jsOr opts.legacyStateDirs (.arr .nil))).any
            fun p => (fs p).isFile) fs2 ∧
        ∀ q, fs2 q =
          if q ∈ stateReadCandidates (normalizeStateDir opts.stateDir cfg)
            (normalizeHandle h) (jsOr opts.legacyStateDirs (.arr .nil))
          then .absent else fs q) ∧
    (∀ (l1 : List String) (c : String) (l2 : List String) (code : String),
      stateReadCandidates (normalizeStateDir opts.stateDir cfg)
          (normalizeHandle h) (jsOr opts.legacyStateDirs (.arr .nil)) =
        l1 ++ c :: l2 →
      (∀ p ∈ l1, (fs p).isErr = false) →
      fs c = .ioError code →
      ∃ fs2, clearAgentAuthState h opts cfg fs = .err code fs2 ∧
        ∀ q, fs2 q = if q ∈ l1 then .absent else fs q) := by
  set th := normalizeHandle h with hth
  set dir := normalizeStateDir opts.stateDir cfg with hdir
  set cands := stateReadCandidates dir th
    (jsOr opts.legacyStateDirs (.arr .nil)) with hcands
  constructor
  · intro herr
    obtain ⟨fs2, hres, hpt⟩ := clearLoop_ok cands false fs herr
    refine ⟨fs2, ?_, hpt⟩
    unfold clearAgentAuthState
    rw [if_neg hh]
    rw [hres, Bool.false_or]
  · intro l1 c l2 code hsplit herr hc
    obtain ⟨fs2, hres, hpt⟩ := clearLoop_err l1 c l2 false fs code herr hc
    refine ⟨fs2, ?_, hpt⟩
    unfold clearAgentAuthState
    rw [if_neg hh]
    show clearLoop cands false fs = _
    rw [hsplit, hres]

/-- Witness for claim C6: clearing a handle whose primary file exists
returns true and deletes it. -/
theorem clear_deletes_and_reports_witness :
    (clearAgentAuthState (.str "alice") {} ⟨none, "/home/u"⟩
        (fun q =>
          if q = "/home/u/.openclaw/contextoverflow/auth/alice.json"
          then .file (.json .null) else .absent)).res = some true ∧
    (clearAgentAuthState (.str "alice") {} ⟨none, "/home/u"⟩
        (fun q =>
          if q = "/home/u/.openclaw/contextoverflow/auth/alice.json"
          then .file (.json .null) else .absent)).fsOut
      "/home/u/.openclaw/contextoverflow/auth/alice.json" = .absent := by
  obtain ⟨fs2, hres, hpt⟩ := (clear_deletes_and_reports (.str "alice") {}
    ⟨none, "/home/u"⟩
    (fun q =>
      if q = "/home/u/.openclaw/contextoverflow/auth/alice.json"
      then .file (.json .null) else .absent)
    (by decide)).1 (by decide)
  rw [hres]
  refine ⟨rfl, ?_⟩
  show fs2 "/home/u/.openclaw/contextoverflow/auth/alice.json" = .absent
  rw [hpt]
  rfl

/-- Claim C8: for a non-empty handle the resolved storage path is
`<stateDir>/<sanitizedHandle>.json` with every slash and backslash in the
trimmed handle replaced by an underscore; the state directory is the
explicit non-blank option when given, else the truthy environment
override, else the built-in default under the home directory; and
`getAuthStateFilePath`, load, save and clear all use this same
derivation (load and clear consult it as their first candidate, save
writes to it). -/
theorem path_derivation_consistent
    (h state : JSVal) (opts : Options) (cfg : EnvCfg) (now : String)
    (fs : FS)
    (hh : normalizeHandle h ≠ "") :
    getAuthStateFilePath h opts cfg =
      .ok (pathJoin (normalizeStateDir opts.stateDir cfg)
        (sanitizeHandleForPath (normalizeHandle h) ++ ".json")) ∧
    (∀ sd, opts.stateDir = .str sd → strTrim sd ≠ "" →
      normalizeStateDir opts.stateDir cfg = strTrim sd) ∧
    (jsTypeofString opts.stateDir = false →
      ∀ e, cfg.envAuthStateDir = some e → e ≠ "" →
      normalizeStateDir opts.stateDir cfg = strTrim e) ∧
    (jsTypeofString opts.stateDir = false →
      (cfg.envAuthStateDir = none ∨ cfg.envAuthStateDir = some "") →
      normalizeStateDir opts.stateDir cfg = defaultAuthStateDir cfg) ∧
    (∀ sd, opts.stateDir = .str sd → strTrim sd = "" →
      ∀ e, cfg.envAuthStateDir = some e → e ≠ "" →
      normalizeStateDir opts.stateDir cfg = strTrim e) ∧
    (∀ sd, opts.stateDir = .str sd → strTrim sd = "" →
      (cfg.envAuthStateDir = none ∨ cfg.envAuthStateDir = some "") →
      normalizeStateDir opts.stateDir cfg = defaultAuthStateDir cfg) ∧
    (stateReadCandidates (normalizeStateDir opts.stateDir cfg)
        (normalizeHandle h) (jsOr opts.legacyStateDirs (.arr .nil))).head? =
      some (pathJoin (normalizeStateDir opts.stateDir cfg)
        (sanitizeHandleForPath (normalizeHandle h) ++ ".json")) ∧
    (saveAgentAuthState h state opts cfg now fs).fsOut
        (pathJoin (normalizeStateDir opts.stateDir cfg)
          (sanitizeHandleForPath (normalizeHandle h) ++ ".json")) =
      .file (.json (jsonRound (savedRecord state (normalizeHandle h) now))) ∧
    (∀ c ∈ (sanitizeHandleForPath (normalizeHandle h)).data,
      c ≠ '/' ∧ c ≠ '\\') := by
  refine ⟨?_, ?_, ?_, ?_, ?_, ?_, ?_, ?_, ?_⟩
  · unfold getAuthStateFilePath
    rw [if_neg hh]
    rfl
  · intro sd hsd hne
    rw [hsd]
    simp only [normalizeStateDir]
    rw [if_pos hne]
  · intro hns e he hene
    cases hsd : opts.stateDir with
    | str sd => rw [hsd] at hns; simp [jsTypeofString] at hns
    | undefined => simp [normalizeStateDir, he, hene]
    | null => simp [normalizeStateDir, he, hene]
    | bool b => simp [normalizeStateDir, he, hene]
    | num n => simp [normalizeStateDir, he, hene]
    | arr xs => simp [normalizeStateDir, he, hene]
    | obj fields => simp [normalizeStateDir, he, hene]
  · intro hns henv
    cases hsd : opts.stateDir with
    | str sd => rw [hsd] at hns; simp [jsTypeofString] at hns
    | undefined => rcases henv with he | he <;> simp [normalizeStateDir, he]
    | null => rcases henv with he | he <;> simp [normalizeStateDir, he]
    | bool b => rcases henv with he | he <;> simp [normalizeStateDir, he]
    | num n => rcases henv with he | he <;> simp [normalizeStateDir, he]
    | arr xs => rcases henv with he | he <;> simp [normalizeStateDir, he]
    | obj fields => rcases henv with he | he <;> simp [normalizeStateDir, he]
  · intro sd hsd hemp e he hene
    rw [hsd]
    simp [normalizeStateDir, hemp, he, hene]
  · intro sd hsd hemp henv
    rw [hsd]
    rcases henv with he | he <;> simp [normalizeStateDir, hemp, he]
  · obtain ⟨rest, hcand⟩ := stateReadCandidates_head
      (normalizeStateDir opts.stateDir cfg) (normalizeHandle h)
      (jsOr opts.legacyStateDirs (.arr .nil))
    rw [hcand]
    rfl
  · unfold saveAgentAuthState
    rw [if_neg hh]
    show FS.set fs _ _ _ = _
    simp [FS.set, stateFilePath]
  · intro c hc
    unfold sanitizeHandleForPath at hc
    simp only [List.mem_map] at hc
    obtain ⟨c0, -, hc0⟩ := hc
    by_cases hsl : c0 = '/' ∨ c0 = '\\'
    · rw [if_pos hsl] at hc0
      rw [← hc0]
      exact ⟨by decide, by decide⟩
    · rw [if_neg hsl] at hc0
      push_neg at hsl
      rw [← hc0]
      exact hsl

/-- Witness for claim C8: a handle with separators and a blank-padded
explicit state directory. -/
theorem path_derivation_consistent_witness :
    getAuthStateFilePath (.str "a/b\\c") { stateDir := .str " /dir " }
        ⟨some "/env", "/home/u"⟩ = .ok "/dir/a_b_c.json" ∧
    normalizeStateDir (.str " /dir ") ⟨some "/env", "/home/u"⟩ = "/dir" := by
  obtain ⟨g, r2, -, -, -, -, -, -, -⟩ := path_derivation_consistent
    (.str "a/b\\c") .null { stateDir := .str " /dir " }
    ⟨some "/env", "/home/u"⟩ "T" (fun _ => .absent) (by decide)
  refine ⟨?_, ?_⟩
  · rw [g]
    rfl
  · exact r2 " /dir " rfl (by decide)
